import Mathlib

/-!
# Verification of `data/manager.go` (package `data` of the paas repository)

A shallow embedding of the passwd/group record parser, the snapshot (index) builder,
the query surface of the `manager`, the file monitor loop and the HTTP handlers of
`handler/handler.go`, followed by theorems about them.

Modelling conventions

* A Go `string` is a list of Unicode code points (`Str`).
* A Go `error` is its message (`Str`); a function returning `(T, error)` is an `Except Str T`.
* A Go `map[string]T` is an association list (`GoMap T`): an assignment `m[k] = v` puts the
  pair in front and a read returns the first pair with that key, so the last assignment wins.
* A pointer to an immutable record (`*User`, `*Group`) is the record, a possibly nil pointer
  is an `Option`.  A nil and an empty slice are both the empty list.
* Dereferencing a nil `*userData` / `*groupData` panics: a query returns `Except GoPanic _`.
* Locks are not modelled: every operation is executed atomically.
-/

namespace Paas

/-- A Go string, as the list of its code points. -/
abbrev Str := List Char

/-- A run-time panic of the Go program. -/
inductive GoPanic where
  | nilDereference
  deriving DecidableEq, Repr

deriving instance DecidableEq for Except

/-! ## The parts of the Go standard library that the code uses -/

/-- Go `unicode.IsSpace`: the code points with the Unicode White_Space property. -/
def isSpace (c : Char) : Bool :=
  let n := c.toNat
  (9 ≤ n && n ≤ 13) || n == 32 || n == 0x85 || n == 0xA0 || n == 0x1680 ||
    (0x2000 ≤ n && n ≤ 0x200A) || n == 0x2028 || n == 0x2029 || n == 0x202F ||
    n == 0x205F || n == 0x3000

/-- Go `strings.TrimSpace`: drops the leading and the trailing white space. -/
def TrimSpace (s : Str) : Str :=
  ((s.dropWhile isSpace).reverse.dropWhile isSpace).reverse

/-- Go `strings.Split(s, sep)` for a separator of one character: the pieces of `s`
between the occurrences of `sep`; one more piece than there are separators. -/
def Split (s : Str) (sep : Char) : List Str :=
  match s with
  | [] => [[]]
  | c :: cs =>
    if c = sep then [] :: Split cs sep
    else
      match Split cs sep with
      | [] => [[c]]
      | piece :: pieces => (c :: piece) :: pieces

/-- Go `strings.HasPrefix(s, p)` for a `p` of one character. -/
def HasPrefix (s : Str) (p : Char) : Bool :=
  match s with
  | [] => false
  | c :: _ => c == p

/-- Go `fmt.Errorf("Malformed content %s", line)`. -/
def malformedContent (line : Str) : Str :=
  "Malformed content ".data ++ line

/-- A Go `map[string]T`. -/
abbrev GoMap (β : Type) := List (Str × β)

/-- The read `m[k]` (with the `ok` flag): the most recently assigned value. -/
def GoMap.get {β : Type} (m : GoMap β) (k : Str) : Option β :=
  match m with
  | [] => none
  | (k', v) :: rest => if k = k' then some v else GoMap.get rest k

/-- The assignment `m[k] = v`. -/
def GoMap.set {β : Type} (m : GoMap β) (k : Str) (v : β) : GoMap β :=
  (k, v) :: m

/-- The read `m[k]` of a `map[string][]T`: the nil slice when the key is absent. -/
def GoMap.getSlice {β : Type} (m : GoMap (List β)) (k : Str) : List β :=
  (m.get k).getD []

/-- What a path of the file system holds, as `os.Stat` and `ioutil.ReadFile` see it. -/
inductive FileState where
  /-- `os.Stat` fails with an error for which `os.IsNotExist` holds -/
  | missing
  /-- `os.Stat` fails with another error -/
  | statFails (err : Str)
  /-- `os.Stat` succeeds and `ioutil.ReadFile` fails -/
  | unreadable (err : Str)
  /-- `ioutil.ReadFile` returns the content -/
  | content (buf : Str)
  deriving DecidableEq, Repr

/-- The file system: what each path holds. -/
abbrev FileSystem := Str → FileState

/-- Go `ioutil.ReadFile`. -/
def ReadFile (fs : FileSystem) (path : Str) : Except Str Str :=
  match fs path with
  | .missing => .error ("open ".data ++ path ++ ": no such file or directory".data)
  | .statFails err => .error err
  | .unreadable err => .error err
  | .content buf => .ok buf

/-! ## `data/manager.go` -/

def userNameOffset : Nat := 0
def uidOffset : Nat := 2
def userGidOffset : Nat := 3
def commentOffset : Nat := 4
def homeOffset : Nat := 5
def shellOffset : Nat := 6

def groupNameOffset : Nat := 0
def groupGidOffset : Nat := 2
def memberOffset : Nat := 3

def fieldDelim : Char := ':'
def memberDelim : Char := ','

def numberOfFieldGroupEntry : Nat := 4
def numberOfFieldPasswdField : Nat := 7

/-- The entry read from a line of the passwd file. -/
structure User where
  Name : Str
  UID : Str
  GID : Str
  Comment : Str
  Home : Str
  Shell : Str
  deriving DecidableEq, Repr

/-- The entry read from a line of the group file; `memberSet` is the key set of the
map `memberSet map[string]struct{}`, as the list of the keys assigned. -/
structure Group where
  Name : Str
  GID : Str
  Members : List Str
  memberSet : GoMap Unit
  deriving DecidableEq, Repr

/-- The index of the users by UID and by name. -/
structure userData where
  userMapByID : GoMap User
  userMapByName : GoMap (List User)
  userSlice : List User
  deriving DecidableEq, Repr

/-- The index of the groups by GID and by name. -/
structure groupData where
  groupMapByID : GoMap Group
  groupMapByName : GoMap (List Group)
  groupSlice : List Group
  deriving DecidableEq, Repr

/-- The state of the `manager`: the two paths and the two snapshot pointers
(the `exit` channel belongs to the monitor, the locks are not modelled). -/
structure manager where
  passwdFilePath : Str
  groupFilePath : Str
  user : Option userData
  group : Option groupData
  deriving DecidableEq, Repr

def manager.GetAllUsers (m : manager) : Except GoPanic (List User) :=
  match m.user with
  | none => .error .nilDereference
  | some d => .ok d.userSlice

def compareUser (gid comment home shell : Str) (user : User) : Bool :=
  if gid.length > 0 && user.GID ≠ gid then false
  else if comment.length > 0 && user.Comment ≠ comment then false
  else if home.length > 0 && user.Home ≠ home then false
  else if shell.length > 0 && user.Shell ≠ shell then false
  else true

def manager.GetUserByUID (m : manager) (uid : Str) : Except GoPanic (Option User) :=
  match m.user with
  | none => .error .nilDereference
  | some d => .ok (d.userMapByID.get uid)

def manager.GetUserByQuery (m : manager) (name uid gid comment home shell : Str) :
    Except GoPanic (List User) :=
  let res : List User := []
  if uid.length ≠ 0 then
    match m.GetUserByUID uid with
    | .error p => .error p
    | .ok none => .ok res
    | .ok (some user) =>
      if name.length > 0 && user.Name ≠ name then .ok res
      else if !compareUser gid comment home shell user then .ok res
      else .ok (res ++ [user])
  else
    match m.user with
    | none => .error .nilDereference
    | some d =>
      let candidate := if name.length ≠ 0 then d.userMapByName.getSlice name else d.userSlice
      if name.length ≠ 0 && candidate.length = 0 then .ok res
      else
        .ok (candidate.foldl
          (fun res u => if !compareUser gid comment home shell u then res else res ++ [u]) res)

def manager.GetGroupsByUID (m : manager) (uid : Str) : Except GoPanic (List Group) :=
  let res : List Group := []
  match m.GetUserByUID uid with
  | .error p => .error p
  | .ok none => .ok res
  | .ok (some user) =>
    match m.group with
    | none => .error .nilDereference
    | some d =>
      .ok (d.groupSlice.foldl
        (fun res g => if (g.memberSet.get user.Name).isSome then res ++ [g] else res) res)

def manager.GetAllGroups (m : manager) : Except GoPanic (List Group) :=
  match m.group with
  | none => .error .nilDereference
  | some d => .ok d.groupSlice

/-- The loop `for _, m := range members` of the branch `len(gid) > 0` of `GetGroupByQuery`:
`false` when it leaves by `return res`. -/
def allMembersInSet (group : Group) : List Str → Bool
  | [] => true
  | m :: rest => if !(group.memberSet.get m).isSome then false else allMembersInSet group rest

/-- The inner loop `for _, memberInQuery := range members` of `GetGroupByQuery`:
`false` when it leaves by `continue Loop`. -/
def matchesMembers (g : Group) : List Str → Bool
  | [] => true
  | memberInQuery :: rest =>
    if g.Members.length = 0 then false
    else if !(g.memberSet.get memberInQuery).isSome then false
    else matchesMembers g rest

def manager.GetGroupByQuery (m : manager) (name gid : Str) (members : List Str) :
    Except GoPanic (List Group) :=
  let res : List Group := []
  match m.group with
  | none => .error .nilDereference
  | some d =>
    if gid.length > 0 then
      match d.groupMapByID.get gid with
      | none => .ok res
      | some group =>
        if name.length > 0 && group.Name ≠ name then .ok res
        else if !allMembersInSet group members then .ok res
        else .ok (res ++ [group])
    else
      let candidate := if name.length ≠ 0 then d.groupMapByName.getSlice name else d.groupSlice
      if name.length ≠ 0 && candidate.length = 0 then .ok res
      else
        .ok (candidate.foldl (fun res g => if matchesMembers g members then res ++ [g] else res) res)

def manager.GetGroupByGID (m : manager) (gid : Str) : Except GoPanic (Option Group) :=
  match m.group with
  | none => .error .nilDereference
  | some d => .ok (d.groupMapByID.get gid)

def parseGroup (line : Str) : Except Str Group :=
  let strList := Split (TrimSpace line) fieldDelim
  if strList.length ≠ numberOfFieldGroupEntry then .error (malformedContent line)
  else
    let res : Group :=
      { Name := TrimSpace (strList.getD groupNameOffset [])
        GID := TrimSpace (strList.getD groupGidOffset [])
        Members := []
        memberSet := [] }
    let members := strList.getD memberOffset []
    if members.length ≠ 0 then
      let memberList := Split (TrimSpace members) memberDelim
      let Members := res.Members ++ memberList
      .ok { res with
        Members := Members
        memberSet := Members.foldl (fun set m => set.set m ()) res.memberSet }
    else .ok res

/-- The loop `for _, line := range lines` of `parseGroupFile`. -/
def parseGroupLines : List Str → groupData → Except Str groupData
  | [], groupDataObj => .ok groupDataObj
  | line :: rest, groupDataObj =>
    let line := TrimSpace line
    if line.length = 0 || HasPrefix line '#' then parseGroupLines rest groupDataObj
    else
      match parseGroup line with
      | .error err => .error err
      | .ok group =>
        parseGroupLines rest
          { groupSlice := groupDataObj.groupSlice ++ [group]
            groupMapByID := groupDataObj.groupMapByID.set group.GID group
            groupMapByName := groupDataObj.groupMapByName.set group.Name
              (groupDataObj.groupMapByName.getSlice group.Name ++ [group]) }

def parseGroupFile (fs : FileSystem) (groupFilePath : Str) : Except Str groupData :=
  match ReadFile fs groupFilePath with
  | .error err => .error err
  | .ok buf =>
    parseGroupLines (Split (TrimSpace buf) '\n')
      { groupMapByID := [], groupMapByName := [], groupSlice := [] }

def parseUser (line : Str) : Except Str User :=
  let strList := Split (TrimSpace line) fieldDelim
  if strList.length ≠ numberOfFieldPasswdField then .error (malformedContent line)
  else
    .ok
      { Name := TrimSpace (strList.getD userNameOffset [])
        UID := TrimSpace (strList.getD uidOffset [])
        GID := TrimSpace (strList.getD userGidOffset [])
        Comment := TrimSpace (strList.getD commentOffset [])
        Home := TrimSpace (strList.getD homeOffset [])
        Shell := TrimSpace (strList.getD shellOffset []) }

/-- The loop `for _, line := range lines` of `parsePasswdFile`. -/
def parsePasswdLines : List Str → userData → Except Str userData
  | [], userDataObj => .ok userDataObj
  | line :: rest, userDataObj =>
    let line := TrimSpace line
    if line.length = 0 || HasPrefix line '#' then parsePasswdLines rest userDataObj
    else
      match parseUser line with
      | .error err => .error err
      | .ok user =>
        parsePasswdLines rest
          { userSlice := userDataObj.userSlice ++ [user]
            userMapByID := userDataObj.userMapByID.set user.UID user
            userMapByName := userDataObj.userMapByName.set user.Name
              (userDataObj.userMapByName.getSlice user.Name ++ [user]) }

def parsePasswdFile (fs : FileSystem) (passwdFilePath : Str) : Except Str userData :=
  match ReadFile fs passwdFilePath with
  | .error err => .error err
  | .ok buf =>
    parsePasswdLines (Split (TrimSpace buf) '\n')
      { userMapByID := [], userMapByName := [], userSlice := [] }

/-- The rebuild callback of the passwd file: on a parse error it returns before the
assignment `mgr.user = userDataObj`. -/
def handlePasswdFileUpdate (fs : FileSystem) (mgr : manager) : manager :=
  match parsePasswdFile fs mgr.passwdFilePath with
  | .error _ => mgr
  | .ok userDataObj => { mgr with user := some userDataObj }

/-- The rebuild callback of the group file: on a parse error it only logs, there is no
`return`, and the assignment `mgr.group = groupDataObj` stores the nil pointer that
`parseGroupFile` returned with the error. -/
def handleGroupFileUpdate (fs : FileSystem) (mgr : manager) : manager :=
  match parseGroupFile fs mgr.groupFilePath with
  | .error _ => { mgr with group := none }
  | .ok groupDataObj => { mgr with group := some groupDataObj }

/-- Go `pathExists`: the answer together with the error, if any. -/
def pathExists (fs : FileSystem) (path : Str) : Bool × Option Str :=
  match fs path with
  | .missing => (false, none)
  | .statFails err => (false, some err)
  | .unreadable _ => (true, none)
  | .content _ => (true, none)

/-- A `fsnotify.FileEvent`, as the answers of the predicates that `watchFile` consults. -/
structure FileEvent where
  IsDelete : Bool
  IsRename : Bool
  IsModify : Bool
  deriving DecidableEq, Repr

/-- The states of the monitor of one path: in the `select` of `watchFile`, in the loop of
`waitForFileCreation`, and after `watchFile` has returned. -/
inductive MonitorPhase where
  | Watching
  | AwaitingRecreation
  | Stopped
  deriving DecidableEq, Repr

/-- What the monitor goroutine observes next. -/
inductive Observation where
  /-- the channel `m.exit` is closed -/
  | exitClosed
  /-- `watcher.Event` delivers an event -/
  | event (ev : FileEvent)
  /-- `watcher.Error` delivers an error -/
  | watcherError (err : Str)
  /-- one more iteration of the loop of `waitForFileCreation`, `m.exit` not closed -/
  | poll
  deriving DecidableEq, Repr

/-- The monitor of one path together with the store it rebuilds.  `watcherClosed` records
whether `watcher.Close()` has been called: `manager.go` has no such call. -/
structure Monitor where
  phase : MonitorPhase
  watcherClosed : Bool
  mgr : manager
  deriving DecidableEq, Repr

/-- One iteration of the loop of `waitForFileCreation`.  On `m.exit` it returns, and the
`continue ForLoop` of `watchFile` then leaves the loop through its first `select`.  The loop
does not read the channels of the watcher: whatever else is observed, it tests the path,
sleeps when the path is missing and calls `watcher.Watch(path)` and leaves when it exists.
Nothing in it touches the snapshots. -/
def waitForFileCreation (fs : FileSystem) (path : Str) (obs : Observation) (mon : Monitor) :
    Monitor :=
  match obs with
  | .exitClosed => { mon with phase := .Stopped }
  | _ =>
    if !(pathExists fs path).1 then mon
    else { mon with phase := .Watching }

/-- One iteration of the loop `ForLoop` of `watchFile` (in `AwaitingRecreation`: of the loop
of `waitForFileCreation` that it has called), in the file system `fs`. -/
def watchFile (path : Str) (handler : FileSystem → manager → manager) (fs : FileSystem)
    (obs : Observation) (mon : Monitor) : Monitor :=
  match mon.phase with
  | .Stopped => mon
  | .AwaitingRecreation => waitForFileCreation fs path obs mon
  | .Watching =>
    match obs with
    | .exitClosed => { mon with phase := .Stopped }
    | .event ev =>
      if ev.IsDelete then { mon with phase := .AwaitingRecreation }
      else if ev.IsRename then { mon with phase := .AwaitingRecreation }
      else if ev.IsModify then { mon with mgr := handler fs mon.mgr }
      else mon
    | .watcherError _ => { mon with phase := .Stopped }
    | .poll => mon

/-- A run of the monitor: the observations in order, each with the file system of its time. -/
def watchFileRun (path : Str) (handler : FileSystem → manager → manager) :
    List (FileSystem × Observation) → Monitor → Monitor
  | [], mon => mon
  | (fs, obs) :: rest, mon => watchFileRun path handler rest (watchFile path handler fs obs mon)

/-- The goroutine `go m.watchFile(watcherPasswd, m.passwdFilePath, handlePasswdFileUpdate)`
that `Start` launches, at its start. -/
def passwdMonitor (m : manager) : Monitor :=
  { phase := .Watching, watcherClosed := false, mgr := m }

/-- The goroutine `go m.watchFile(watcherGroup, m.groupFilePath, handleGroupFileUpdate)`
that `Start` launches, at its start. -/
def groupMonitor (m : manager) : Monitor :=
  { phase := .Watching, watcherClosed := false, mgr := m }

/-- Go `NewManager`: both paths must exist, then both files must parse. -/
def NewManager (fs : FileSystem) (passwdPath groupPath : Str) : Except Str manager :=
  if !(pathExists fs passwdPath).1 then
    .error ("File ".data ++ passwdPath ++ " does not exist".data)
  else if !(pathExists fs groupPath).1 then
    .error ("File ".data ++ groupPath ++ " does not exist".data)
  else
    match parsePasswdFile fs passwdPath with
    | .error err => .error err
    | .ok user =>
      match parseGroupFile fs groupPath with
      | .error err => .error err
      | .ok group =>
        .ok { passwdFilePath := passwdPath, groupFilePath := groupPath,
              user := some user, group := some group }

/-- The negation of the test `len(line) == 0 || strings.HasPrefix(line, "#")` by which the
full-file parse skips a trimmed line. -/
def isRecordLine (line : Str) : Bool :=
  !(line.length = 0 || HasPrefix line '#')

/-- The lines of a file content that reach the record parser: the content is cut at the
line feeds, each line is trimmed, and the lines that are then empty or start with `#` are
left out. -/
def recordLines (buf : Str) : List Str :=
  ((Split buf '\n').map TrimSpace).filter isRecordLine

/-! ## `handler/handler.go` -/

def qryName : Str := "name".data
def qryGID : Str := "gid".data
def qryUID : Str := "uid".data
def groupQryMember : Str := "member".data
def userQryComment : Str := "comment".data
def userQryHome : Str := "home".data
def userQryShell : Str := "shell".data

/-- Go `http.StatusOK`. -/
def StatusOK : Nat := 200

/-- Go `http.StatusNoContent`. -/
def StatusNoContent : Nat := 204

/-- Go `http.StatusNotFound`. -/
def StatusNotFound : Nat := 404

/-- Go `http.StatusInternalServerError`. -/
def StatusInternalServerError : Nat := 500

/-- The query methods of the interface `data.Manager`, for any implementation of it; a
method may panic instead of returning. -/
structure Manager where
  GetAllUsers : Except GoPanic (List User)
  GetUserByQuery : Str → Str → Str → Str → Str → Str → Except GoPanic (List User)
  GetUserByUID : Str → Except GoPanic (Option User)
  GetAllGroups : Except GoPanic (List Group)
  GetGroupsByUID : Str → Except GoPanic (List Group)
  GetGroupByQuery : Str → Str → List Str → Except GoPanic (List Group)
  GetGroupByGID : Str → Except GoPanic (Option Group)

/-- The `manager` of `data/manager.go` as an implementation of `Manager`. -/
def manager.asManager (m : manager) : Manager :=
  { GetAllUsers := m.GetAllUsers
    GetUserByQuery := m.GetUserByQuery
    GetUserByUID := m.GetUserByUID
    GetAllGroups := m.GetAllGroups
    GetGroupsByUID := m.GetGroupsByUID
    GetGroupByQuery := m.GetGroupByQuery
    GetGroupByGID := m.GetGroupByGID }

/-- An `http.ResponseWriter`: whether the status line is written, the status code, the body
written so far, and whether `Write` fails (the connection is lost). -/
structure ResponseWriter where
  wroteHeader : Bool
  Code : Nat
  Body : Str
  writeFails : Bool
  deriving DecidableEq, Repr

/-- Go `ResponseWriter.WriteHeader`: a second call is superfluous and has no effect. -/
def ResponseWriter.WriteHeader (w : ResponseWriter) (statusCode : Nat) : ResponseWriter :=
  if w.wroteHeader then w else { w with wroteHeader := true, Code := statusCode }

/-- Go `ResponseWriter.Write`: when `WriteHeader` has not been called it first calls
`WriteHeader(http.StatusOK)`; it returns the writer and the error, if any. -/
def ResponseWriter.Write (w : ResponseWriter) (data : Str) : ResponseWriter × Option Str :=
  let w := w.WriteHeader StatusOK
  if w.writeFails then (w, some "write failed".data)
  else ({ w with Body := w.Body ++ data }, none)

/-- What the handlers read of an `*http.Request`: the values of `r.URL.Query()` and the
route variables `mux.Vars(r)` (a missing variable reads as the empty string). -/
structure Request where
  Query : Str → List Str
  Vars : Str → Str

/-- Go `url.Values.Get`: the first value of the key, or the empty string. -/
def Values.Get (v : Str → List Str) (key : Str) : Str :=
  match v key with
  | [] => []
  | value :: _ => value

/-- The text that `json.Encoder.Encode` produces for the values that the handlers encode.
Marshalling cannot fail for them: their exported fields are strings and slices of strings. -/
structure Encoder where
  users : List User → Str
  user : User → Str
  groups : List Group → Str
  group : Group → Str

/-- Go `encodeJSON`, `marshal` being the text of `v`: `encoder.Encode(v)` writes the text
with one `Write`, and when that fails the handler calls
`w.WriteHeader(http.StatusInternalServerError)`. -/
def encodeJSON {α : Type} (marshal : α → Str) (w : ResponseWriter) (v : α) : ResponseWriter :=
  match w.Write (marshal v) with
  | (w, some _) => w.WriteHeader StatusInternalServerError
  | (w, none) => w

def usersAll (enc : Encoder) (dataMgr : Manager) (w : ResponseWriter) (_r : Request) :
    Except GoPanic ResponseWriter :=
  match dataMgr.GetAllUsers with
  | .error p => .error p
  | .ok users =>
    if users.length = 0 then .ok (w.WriteHeader StatusNoContent)
    else .ok (encodeJSON enc.users w users)

def usersByQuery (enc : Encoder) (dataMgr : Manager) (w : ResponseWriter) (r : Request) :
    Except GoPanic ResponseWriter :=
  let v := r.Query
  let name := Values.Get v qryName
  let uid := Values.Get v qryUID
  let gid := Values.Get v qryGID
  let comment := Values.Get v userQryComment
  let home := Values.Get v userQryHome
  let shell := Values.Get v userQryShell
  match dataMgr.GetUserByQuery name uid gid comment home shell with
  | .error p => .error p
  | .ok users =>
    if users.length = 0 then .ok (w.WriteHeader StatusNoContent)
    else .ok (encodeJSON enc.users w users)

def usersByUID (enc : Encoder) (dataMgr : Manager) (w : ResponseWriter) (r : Request) :
    Except GoPanic ResponseWriter :=
  let uid := r.Vars qryUID
  match dataMgr.GetUserByUID uid with
  | .error p => .error p
  | .ok none => .ok (w.WriteHeader StatusNotFound)
  | .ok (some user) => .ok (encodeJSON enc.user w user)

def groupsAll (enc : Encoder) (dataMgr : Manager) (w : ResponseWriter) (_r : Request) :
    Except GoPanic ResponseWriter :=
  match dataMgr.GetAllGroups with
  | .error p => .error p
  | .ok groups =>
    if groups.length = 0 then .ok (w.WriteHeader StatusNoContent)
    else .ok (encodeJSON enc.groups w groups)

def groupsByUID (enc : Encoder) (dataMgr : Manager) (w : ResponseWriter) (r : Request) :
    Except GoPanic ResponseWriter :=
  let uid := r.Vars qryUID
  match dataMgr.GetGroupsByUID uid with
  | .error p => .error p
  | .ok groups =>
    if groups.length = 0 then .ok (w.WriteHeader StatusNoContent)
    else .ok (encodeJSON enc.groups w groups)

def groupsByQuery (enc : Encoder) (dataMgr : Manager) (w : ResponseWriter) (r : Request) :
    Except GoPanic ResponseWriter :=
  let v := r.Query
  let name := Values.Get v qryName
  let gid := Values.Get v qryGID
  let members := v groupQryMember
  match dataMgr.GetGroupByQuery name gid members with
  | .error p => .error p
  | .ok groups =>
    if groups.length = 0 then .ok (w.WriteHeader StatusNoContent)
    else .ok (encodeJSON enc.groups w groups)

def groupsByGID (enc : Encoder) (dataMgr : Manager) (w : ResponseWriter) (r : Request) :
    Except GoPanic ResponseWriter :=
  let gid := r.Vars qryGID
  match dataMgr.GetGroupByGID gid with
  | .error p => .error p
  | .ok none => .ok (w.WriteHeader StatusNotFound)
  | .ok (some group) => .ok (encodeJSON enc.group w group)

/-- The answer `w'` of a multi-record handler to the sequence `result`, on the writer `w`:
204 No Content exactly when the sequence is empty, and otherwise status 200 with the JSON
text of the sequence in the body (when the write succeeds). -/
def answersSequence {α : Type} (marshal : List α → Str) (w w' : ResponseWriter)
    (result : List α) : Prop :=
  w'.wroteHeader = true ∧ (w'.Code = StatusNoContent ↔ result = []) ∧
  (result = [] → w'.Body = w.Body) ∧
  (result ≠ [] → w'.Code = StatusOK ∧ (w.writeFails = false → w'.Body = w.Body ++ marshal result))

/-- The answer `w'` of a single-record handler to the record `result`, on the writer `w`:
404 Not Found exactly when the record is absent, and otherwise status 200 with the JSON
text of the record in the body (when the write succeeds). -/
def answersRecord {α : Type} (marshal : α → Str) (w w' : ResponseWriter)
    (result : Option α) : Prop :=
  w'.wroteHeader = true ∧ (w'.Code = StatusNotFound ↔ result = none) ∧
  (result = none → w'.Body = w.Body) ∧
  (∀ v, result = some v →
    w'.Code = StatusOK ∧ (w.writeFails = false → w'.Body = w.Body ++ marshal v))

/-! ## Sample data -/

/-- The path of a passwd file. -/
def samplePasswdPath : Str := "/etc/passwd".data

/-- The path of a group file. -/
def sampleGroupPath : Str := "/etc/group".data

/-- A file system holding the given passwd and group contents. -/
def sampleFS (passwd group : FileState) : FileSystem :=
  fun path =>
    if path = samplePasswdPath then passwd
    else if path = sampleGroupPath then group
    else .missing

/-- A passwd file of three records, with a comment and a blank line. -/
def samplePasswd : Str :=
  ("# users\n" ++
   "root:*:0:0:System Administrator:/var/root:/bin/sh\n" ++
   "\n" ++
   "daemon:*:1:1:System Services:/var/root:/usr/bin/false\n" ++
   "_uucp:*:4:4:Unix to Unix Copy Protocol:/var/spool/uucp:/usr/bin/false\n").data

/-- A group file of three records; `nobody` has no member. -/
def sampleGroup : Str :=
  ("wheel:*:0:root\n" ++
   "daemon:*:1:root,daemon\n" ++
   "nobody:*:-2:\n").data

/-- The file system with the sample passwd and group files. -/
def sampleFiles : FileSystem :=
  sampleFS (.content samplePasswd) (.content sampleGroup)

/-- The manager that `NewManager` builds from the sample files. -/
def sampleManager : manager :=
  match NewManager sampleFiles samplePasswdPath sampleGroupPath with
  | .ok m => m
  | .error _ =>
    { passwdFilePath := samplePasswdPath, groupFilePath := sampleGroupPath,
      user := none, group := none }

/-- A modify event (neither a delete nor a rename). -/
def modifyEvent : FileEvent :=
  { IsDelete := false, IsRename := false, IsModify := true }

/-- A delete event. -/
def deleteEvent : FileEvent :=
  { IsDelete := true, IsRename := false, IsModify := false }

/-- A passwd file in which the UID `0` occurs twice. -/
def duplicatePasswd : Str :=
  ("root:*:0:0:System Administrator:/var/root:/bin/sh\n" ++
   "daemon:*:1:1:System Services:/var/root:/usr/bin/false\n" ++
   "toor:*:0:0:Second Administrator:/var/root:/bin/sh\n").data

/-- The snapshot of `duplicatePasswd`. -/
def duplicateUsers : userData :=
  match parsePasswdFile (sampleFS (.content duplicatePasswd) (.content sampleGroup))
      samplePasswdPath with
  | .ok d => d
  | .error _ => { userMapByID := [], userMapByName := [], userSlice := [] }

/-- The snapshot of `sampleGroup`. -/
def sampleGroups : groupData :=
  match parseGroupFile sampleFiles sampleGroupPath with
  | .ok d => d
  | .error _ => { groupMapByID := [], groupMapByName := [], groupSlice := [] }

/-- The snapshot of `samplePasswd`. -/
def sampleUsers : userData :=
  match parsePasswdFile sampleFiles samplePasswdPath with
  | .ok d => d
  | .error _ => { userMapByID := [], userMapByName := [], userSlice := [] }

/-- The record of the line `root:*:0:0:System Administrator:/var/root:/bin/sh`. -/
def rootUser : User :=
  { Name := "root".data, UID := "0".data, GID := "0".data,
    Comment := "System Administrator".data, Home := "/var/root".data, Shell := "/bin/sh".data }

/-- The line that the monitor test appends to the passwd file. -/
def root2Line : Str := "root2:*:99:99:System Administrator:/var/root:/bin/sh".data

/-- The record of `root2Line`. -/
def root2User : User :=
  { Name := "root2".data, UID := "99".data, GID := "99".data,
    Comment := "System Administrator".data, Home := "/var/root".data, Shell := "/bin/sh".data }

/-- The sample files after `root2Line` and a line feed are appended to the passwd file. -/
def appendedFiles : FileSystem :=
  sampleFS (.content (samplePasswd ++ root2Line ++ ['\n'])) (.content sampleGroup)

/-- The snapshot of the passwd file of `appendedFiles`. -/
def appendedUsers : userData :=
  match parsePasswdFile appendedFiles samplePasswdPath with
  | .ok d => d
  | .error _ => { userMapByID := [], userMapByName := [], userSlice := [] }

/-- A passwd file whose second and fourth lines are malformed. -/
def malformedPasswd : Str :=
  ("root:*:0:0:System Administrator:/var/root:/bin/sh\n" ++
   "bad line\n" ++
   "daemon:*:1:1:System Services:/var/root:/usr/bin/false\n" ++
   "worse\n").data

/-- The record of the line `nobody:*:-2:` of the sample group file. -/
def nobodyGroup : Group :=
  { Name := "nobody".data, GID := "-2".data, Members := [], memberSet := [] }

/-- A stand-in for the JSON encoder in the examples: it writes the names. -/
def nameEncoder : Encoder :=
  { users := fun users => (users.map User.Name).flatten
    user := fun user => user.Name
    groups := fun groups => (groups.map Group.Name).flatten
    group := fun group => group.Name }

/-- A response on which nothing is written yet. -/
def freshWriter : ResponseWriter :=
  { wroteHeader := false, Code := 0, Body := [], writeFails := false }

/-- The request `GET /users/999`, resp. `GET /groups/999`. -/
def request999 : Request :=
  { Query := fun _ => []
    Vars := fun key => if key = qryUID ∨ key = qryGID then "999".data else [] }

/-! ## Lemmas on lists and maps -/

theorem foldl_append_filter {α : Type} (p : α → Bool) (l acc : List α) :
    l.foldl (fun res x => if p x then res ++ [x] else res) acc = acc ++ l.filter p := by
  induction l generalizing acc with
  | nil => simp
  | cons x xs ih =>
    simp only [List.foldl_cons, ih, List.filter_cons]
    by_cases hx : p x = true <;> simp [hx]

theorem foldl_skip_filter {α : Type} (p : α → Bool) (l acc : List α) :
    l.foldl (fun res x => if !p x then res else res ++ [x]) acc = acc ++ l.filter p := by
  induction l generalizing acc with
  | nil => simp
  | cons x xs ih =>
    simp only [List.foldl_cons, ih, List.filter_cons]
    by_cases hx : p x = true <;> simp [hx]

theorem GoMap.get_set {β : Type} (m : GoMap β) (k : Str) (v : β) (k' : Str) :
    (m.set k v).get k' = if k' = k then some v else m.get k' := by
  simp [GoMap.set, GoMap.get]

theorem GoMap.get_nil {β : Type} (k : Str) : GoMap.get ([] : GoMap β) k = none := rfl

theorem getLast?_filter_concat {α : Type} (p : α → Bool) (l : List α) (x : α) :
    ((l ++ [x]).filter p).getLast? = if p x then some x else (l.filter p).getLast? := by
  by_cases hx : p x = true <;> simp [List.filter_append, hx]

theorem GoMap.getSlice_of_get {β : Type} [DecidableEq β] (m : GoMap (List β)) (k : Str)
    (l : List β) (h : m.get k = if l = [] then none else some l) : m.getSlice k = l := by
  unfold GoMap.getSlice
  rw [h]
  by_cases hl : l = [] <;> simp [hl]

/-! ## The snapshot built by the full-file parse -/

/-- The loop of `parsePasswdFile` keeps the two maps in step with the slice: the identity map
holds the last record of each UID, the name map the records of each name in order. -/
theorem parsePasswdLines_index (lines : List Str) (d d' : userData)
    (h : parsePasswdLines lines d = .ok d')
    (hid : ∀ k, d.userMapByID.get k
      = (d.userSlice.filter (fun u => decide (u.UID = k))).getLast?)
    (hname : ∀ n, d.userMapByName.get n
      = if d.userSlice.filter (fun u => decide (u.Name = n)) = [] then none
        else some (d.userSlice.filter (fun u => decide (u.Name = n)))) :
    (∀ k, d'.userMapByID.get k
      = (d'.userSlice.filter (fun u => decide (u.UID = k))).getLast?) ∧
    (∀ n, d'.userMapByName.get n
      = if d'.userSlice.filter (fun u => decide (u.Name = n)) = [] then none
        else some (d'.userSlice.filter (fun u => decide (u.Name = n)))) := by
  induction lines generalizing d with
  | nil =>
    simp only [parsePasswdLines, Except.ok.injEq] at h
    subst h
    exact ⟨hid, hname⟩
  | cons line rest ih =>
    simp only [parsePasswdLines] at h
    split at h
    · exact ih d h hid hname
    · split at h
      · exact absurd h (by simp)
      · rename_i user _
        refine ih _ h ?_ ?_
        · intro k
          simp only [GoMap.get_set, getLast?_filter_concat, hid k]
          by_cases hk : k = user.UID
          · simp [hk]
          · have hk' : ¬ user.UID = k := fun e => hk e.symm
            simp [hk, hk']
        · intro n
          simp only [GoMap.get_set, List.filter_append]
          by_cases hn : n = user.Name
          · subst hn
            rw [GoMap.getSlice_of_get _ _ _ (hname user.Name)]
            simp
          · have hn' : ¬ user.Name = n := fun e => hn e.symm
            simp [hn, hn', hname n]

theorem parsePasswdFile_index (fs : FileSystem) (path : Str) (d : userData)
    (h : parsePasswdFile fs path = .ok d) :
    (∀ k, d.userMapByID.get k
      = (d.userSlice.filter (fun u => decide (u.UID = k))).getLast?) ∧
    (∀ n, d.userMapByName.get n
      = if d.userSlice.filter (fun u => decide (u.Name = n)) = [] then none
        else some (d.userSlice.filter (fun u => decide (u.Name = n)))) := by
  unfold parsePasswdFile at h
  split at h
  · exact absurd h (by simp)
  · exact parsePasswdLines_index _ _ _ h (fun _ => rfl) (fun _ => rfl)

theorem memberSet_foldl (l : List Str) (acc : GoMap Unit) (x : Str) :
    ((l.foldl (fun set m => set.set m ()) acc).get x).isSome = true
      ↔ x ∈ l ∨ (acc.get x).isSome = true := by
  induction l generalizing acc with
  | nil => simp
  | cons m ms ih =>
    simp only [List.foldl_cons, ih, GoMap.get_set, List.mem_cons]
    by_cases hx : x = m <;> simp [hx]

/-- The member set that `parseGroup` materializes holds exactly the names of `Members`. -/
theorem parseGroup_memberSet (line : Str) (g : Group) (h : parseGroup line = .ok g) (x : Str) :
    (g.memberSet.get x).isSome = true ↔ x ∈ g.Members := by
  unfold parseGroup at h
  simp only at h
  split at h
  · exact absurd h (by simp)
  · split at h
    · simp only [Except.ok.injEq] at h
      subst h
      simp [memberSet_foldl, GoMap.get]
    · simp only [Except.ok.injEq] at h
      subst h
      simp [GoMap.get]

/-- The loop of `parseGroupFile` keeps the two maps in step with the slice, and every group
of the slice has the member set of its member list. -/
theorem parseGroupLines_index (lines : List Str) (d d' : groupData)
    (h : parseGroupLines lines d = .ok d')
    (hid : ∀ k, d.groupMapByID.get k
      = (d.groupSlice.filter (fun g => decide (g.GID = k))).getLast?)
    (hname : ∀ n, d.groupMapByName.get n
      = if d.groupSlice.filter (fun g => decide (g.Name = n)) = [] then none
        else some (d.groupSlice.filter (fun g => decide (g.Name = n))))
    (hset : ∀ g ∈ d.groupSlice, ∀ x, (g.memberSet.get x).isSome = true ↔ x ∈ g.Members) :
    (∀ k, d'.groupMapByID.get k
      = (d'.groupSlice.filter (fun g => decide (g.GID = k))).getLast?) ∧
    (∀ n, d'.groupMapByName.get n
      = if d'.groupSlice.filter (fun g => decide (g.Name = n)) = [] then none
        else some (d'.groupSlice.filter (fun g => decide (g.Name = n)))) ∧
    (∀ g ∈ d'.groupSlice, ∀ x, (g.memberSet.get x).isSome = true ↔ x ∈ g.Members) := by
  induction lines generalizing d with
  | nil =>
    simp only [parseGroupLines, Except.ok.injEq] at h
    subst h
    exact ⟨hid, hname, hset⟩
  | cons line rest ih =>
    simp only [parseGroupLines] at h
    split at h
    · exact ih d h hid hname hset
    · split at h
      · exact absurd h (by simp)
      · rename_i group hgroup
        refine ih _ h ?_ ?_ ?_
        · intro k
          simp only [GoMap.get_set, getLast?_filter_concat, hid k]
          by_cases hk : k = group.GID
          · simp [hk]
          · have hk' : ¬ group.GID = k := fun e => hk e.symm
            simp [hk, hk']
        · intro n
          simp only [GoMap.get_set, List.filter_append]
          by_cases hn : n = group.Name
          · subst hn
            rw [GoMap.getSlice_of_get _ _ _ (hname group.Name)]
            simp
          · have hn' : ¬ group.Name = n := fun e => hn e.symm
            simp [hn, hn', hname n]
        · intro g hg x
          simp only [List.mem_append, List.mem_singleton] at hg
          rcases hg with hg | hg
          · exact hset g hg x
          · subst hg
            exact parseGroup_memberSet _ _ hgroup x

theorem parseGroupFile_index (fs : FileSystem) (path : Str) (d : groupData)
    (h : parseGroupFile fs path = .ok d) :
    (∀ k, d.groupMapByID.get k
      = (d.groupSlice.filter (fun g => decide (g.GID = k))).getLast?) ∧
    (∀ n, d.groupMapByName.get n
      = if d.groupSlice.filter (fun g => decide (g.Name = n)) = [] then none
        else some (d.groupSlice.filter (fun g => decide (g.Name = n)))) ∧
    (∀ g ∈ d.groupSlice, ∀ x, (g.memberSet.get x).isSome = true ↔ x ∈ g.Members) := by
  unfold parseGroupFile at h
  split at h
  · exact absurd h (by simp)
  · exact parseGroupLines_index _ _ _ h (fun _ => rfl) (fun _ => rfl) (by simp)

theorem compareUser_iff (gid comment home shell : Str) (u : User) :
    compareUser gid comment home shell u = true
      ↔ (gid ≠ [] → u.GID = gid) ∧ (comment ≠ [] → u.Comment = comment) ∧
        (home ≠ [] → u.Home = home) ∧ (shell ≠ [] → u.Shell = shell) := by
  unfold compareUser
  split_ifs <;> simp_all [List.length_pos]

theorem allMembersInSet_iff (g : Group) (members : List Str) :
    allMembersInSet g members = true ↔ ∀ x ∈ members, (g.memberSet.get x).isSome = true := by
  induction members with
  | nil => simp [allMembersInSet]
  | cons x xs ih =>
    simp only [allMembersInSet, List.mem_cons, forall_eq_or_imp]
    by_cases hx : (g.memberSet.get x).isSome = true
    · simp [hx, ih]
    · simp [hx]

theorem matchesMembers_iff (g : Group) (members : List Str) :
    matchesMembers g members = true
      ↔ (members ≠ [] → g.Members ≠ []) ∧ ∀ x ∈ members, (g.memberSet.get x).isSome = true := by
  induction members with
  | nil => simp [matchesMembers]
  | cons x xs ih =>
    simp only [matchesMembers, List.mem_cons, forall_eq_or_imp]
    by_cases hm : g.Members = []
    · simp [hm]
    · by_cases hx : (g.memberSet.get x).isSome = true
      · simp [hm, hx, ih]
      · simp [hm, hx]

/-! ## Rebuild failure -/

/-- C1 (the code departs from the claim): the group file is rewritten to the malformed
content `wheel`; `parseGroupFile` fails, and `handleGroupFileUpdate`, which does not return
on the error, replaces the good group snapshot by the nil pointer, so that `GetAllGroups`,
which returned the three sample groups, now panics.  The passwd callback keeps its snapshot
on the same kind of failure. -/
theorem handleGroupFileUpdate_malformed_loses_snapshot :
    NewManager sampleFiles samplePasswdPath sampleGroupPath = .ok sampleManager ∧
    (sampleManager.GetAllGroups.toOption.map List.length) = some 3 ∧
    parseGroupFile (sampleFS (.content samplePasswd) (.content "wheel".data))
      sampleManager.groupFilePath = .error (malformedContent "wheel".data) ∧
    (handleGroupFileUpdate (sampleFS (.content samplePasswd) (.content "wheel".data))
      sampleManager).group = none ∧
    (handleGroupFileUpdate (sampleFS (.content samplePasswd) (.content "wheel".data))
      sampleManager).GetAllGroups = .error .nilDereference ∧
    (handleGroupFileUpdate (sampleFS (.content samplePasswd) (.content "wheel".data))
      sampleManager).GetGroupByGID "0".data = .error .nilDereference ∧
    (handlePasswdFileUpdate (sampleFS (.content "root".data) (.content sampleGroup))
      sampleManager).user = sampleManager.user := by
  refine ⟨by decide, by decide, by decide, by decide, by decide, by decide, by decide⟩

/-- C2: when `parsePasswdFile` returns an error for the new content of the passwd file,
`handlePasswdFileUpdate` leaves the store as it was: the user snapshot is unchanged, and
`GetAllUsers`, `GetUserByUID` and `GetUserByQuery` return what they returned before. -/
theorem handlePasswdFileUpdate_error_keeps_snapshot (fs : FileSystem) (m : manager) (err : Str)
    (h : parsePasswdFile fs m.passwdFilePath = .error err) :
    (handlePasswdFileUpdate fs m).user = m.user ∧
    (handlePasswdFileUpdate fs m).GetAllUsers = m.GetAllUsers ∧
    (∀ uid, (handlePasswdFileUpdate fs m).GetUserByUID uid = m.GetUserByUID uid) ∧
    (∀ name uid gid comment home shell,
      (handlePasswdFileUpdate fs m).GetUserByQuery name uid gid comment home shell
        = m.GetUserByQuery name uid gid comment home shell) := by
  have hm : handlePasswdFileUpdate fs m = m := by
    unfold handlePasswdFileUpdate
    rw [h]
  rw [hm]
  exact ⟨rfl, rfl, fun _ => rfl, fun _ _ _ _ _ _ => rfl⟩

/-- C2 at the sample manager, the passwd file rewritten to the malformed content `root`. -/
theorem handlePasswdFileUpdate_error_keeps_snapshot_witness :
    parsePasswdFile (sampleFS (.content "root".data) (.content sampleGroup))
      sampleManager.passwdFilePath = .error (malformedContent "root".data) ∧
    (handlePasswdFileUpdate (sampleFS (.content "root".data) (.content sampleGroup))
      sampleManager).user = sampleManager.user :=
  ⟨by decide,
   (handlePasswdFileUpdate_error_keeps_snapshot
      (sampleFS (.content "root".data) (.content sampleGroup)) sampleManager
      (malformedContent "root".data) (by decide)).1⟩

/-! ## Identity lookup -/

/-- C6: for a successfully parsed passwd file `GetUserByUID k` is the last record of
`GetAllUsers` whose UID is `k`, and it is absent exactly when no record has that UID; for a
successfully parsed group file `GetGroupByGID k` is the last record of `GetAllGroups` whose
GID is `k`, absent exactly when there is none. -/
theorem identity_lookup_last_occurrence_wins :
    (∀ (fs : FileSystem) (path : Str) (d : userData) (m : manager) (k : Str),
      parsePasswdFile fs path = .ok d → m.user = some d →
      ∃ users, m.GetAllUsers = .ok users ∧
        m.GetUserByUID k = .ok ((users.filter (fun u => decide (u.UID = k))).getLast?) ∧
        (m.GetUserByUID k = .ok none ↔ ∀ u ∈ users, u.UID ≠ k)) ∧
    (∀ (fs : FileSystem) (path : Str) (d : groupData) (m : manager) (k : Str),
      parseGroupFile fs path = .ok d → m.group = some d →
      ∃ groups, m.GetAllGroups = .ok groups ∧
        m.GetGroupByGID k = .ok ((groups.filter (fun g => decide (g.GID = k))).getLast?) ∧
        (m.GetGroupByGID k = .ok none ↔ ∀ g ∈ groups, g.GID ≠ k)) := by
  constructor
  · intro fs path d m k hparse hm
    have hid := (parsePasswdFile_index fs path d hparse).1 k
    refine ⟨d.userSlice, by simp [manager.GetAllUsers, hm], ?_, ?_⟩
    · simp [manager.GetUserByUID, hm, hid]
    · simp only [manager.GetUserByUID, hm, hid, Except.ok.injEq, List.getLast?_eq_none_iff,
        List.filter_eq_nil_iff, decide_eq_true_eq]
  · intro fs path d m k hparse hm
    have hid := (parseGroupFile_index fs path d hparse).1 k
    refine ⟨d.groupSlice, by simp [manager.GetAllGroups, hm], ?_, ?_⟩
    · simp [manager.GetGroupByGID, hm, hid]
    · simp only [manager.GetGroupByGID, hm, hid, Except.ok.injEq, List.getLast?_eq_none_iff,
        List.filter_eq_nil_iff, decide_eq_true_eq]

/-- C6 at a passwd file with two records of UID `0`: the lookup returns the second one. -/
theorem identity_lookup_last_occurrence_wins_witness :
    parsePasswdFile (sampleFS (.content duplicatePasswd) (.content sampleGroup))
      samplePasswdPath = .ok duplicateUsers ∧
    (∃ users, ({ sampleManager with user := some duplicateUsers }).GetAllUsers = .ok users ∧
      ({ sampleManager with user := some duplicateUsers }).GetUserByUID "0".data
        = .ok ((users.filter (fun u => decide (u.UID = "0".data))).getLast?) ∧
      (({ sampleManager with user := some duplicateUsers }).GetUserByUID "0".data = .ok none
        ↔ ∀ u ∈ users, u.UID ≠ "0".data)) ∧
    (({ sampleManager with user := some duplicateUsers }).GetUserByUID "0".data).toOption.map
      (Option.map User.Name) = some (some "toor".data) ∧
    parseGroupFile sampleFiles sampleGroupPath = .ok sampleGroups ∧
    (∃ groups, sampleManager.GetAllGroups = .ok groups ∧
      sampleManager.GetGroupByGID "1".data
        = .ok ((groups.filter (fun g => decide (g.GID = "1".data))).getLast?) ∧
      (sampleManager.GetGroupByGID "1".data = .ok none ↔ ∀ g ∈ groups, g.GID ≠ "1".data)) :=
  ⟨by decide,
   identity_lookup_last_occurrence_wins.1
     (sampleFS (.content duplicatePasswd) (.content sampleGroup)) samplePasswdPath
     duplicateUsers { sampleManager with user := some duplicateUsers } "0".data
     (by decide) rfl,
   by decide,
   by decide,
   identity_lookup_last_occurrence_wins.2 sampleFiles sampleGroupPath sampleGroups
     sampleManager "1".data (by decide) (by decide)⟩

/-! ## Queries -/

/-- C7: for a successfully parsed passwd file and an empty `uid`, `GetUserByQuery` returns
the users of `GetAllUsers`, in file order, that equal every non-empty argument on the
corresponding field, whether a name is given (name bucket) or not (full scan); with all
arguments empty it returns every user in file order. -/
theorem GetUserByQuery_without_uid (fs : FileSystem) (path : Str) (d : userData)
    (m : manager) (name gid comment home shell : Str)
    (hparse : parsePasswdFile fs path = .ok d) (hm : m.user = some d) :
    ∃ users, m.GetAllUsers = .ok users ∧
      m.GetUserByQuery name [] gid comment home shell
        = .ok (users.filter (fun u => decide
            ((name ≠ [] → u.Name = name) ∧ (gid ≠ [] → u.GID = gid) ∧
             (comment ≠ [] → u.Comment = comment) ∧ (home ≠ [] → u.Home = home) ∧
             (shell ≠ [] → u.Shell = shell)))) ∧
      m.GetUserByQuery [] [] [] [] [] [] = .ok users := by
  have hname := (parsePasswdFile_index fs path d hparse).2
  refine ⟨d.userSlice, by simp [manager.GetAllUsers, hm], ?_, ?_⟩
  · by_cases hn : name = []
    · subst hn
      simp only [manager.GetUserByQuery, hm, foldl_skip_filter]
      simp only [List.length_nil, ne_eq, not_true_eq_false, ↓reduceIte, decide_False,
        Bool.false_and, Bool.false_eq_true, List.nil_append, Except.ok.injEq]
      apply List.filter_congr
      intro u _
      rw [Bool.eq_iff_iff, compareUser_iff]
      simp only [ne_eq, not_true_eq_false, false_implies, true_and, decide_eq_true_eq]
    · have hbucket := GoMap.getSlice_of_get _ _ _ (hname name)
      have hlen : name.length ≠ 0 := by simpa [List.length_eq_zero] using hn
      simp only [manager.GetUserByQuery, hm, foldl_skip_filter, hbucket]
      simp only [List.length_nil, ne_eq, not_true_eq_false, ↓reduceIte, hlen, not_false_eq_true,
        decide_True, Bool.true_and, decide_eq_true_eq, List.nil_append, List.filter_filter]
      split
      · rename_i hempty
        rw [List.length_eq_zero, List.filter_eq_nil_iff] at hempty
        simp only [Except.ok.injEq]
        symm
        rw [List.filter_eq_nil_iff]
        intro u hu
        have := hempty u hu
        simp only [decide_eq_true_eq] at this
        simp [hn, this]
      · simp only [Except.ok.injEq]
        apply List.filter_congr
        intro u _
        rw [Bool.eq_iff_iff, Bool.and_eq_true, compareUser_iff]
        simp only [ne_eq, hn, not_false_eq_true, true_implies, decide_eq_true_eq]
        tauto
  · simp only [manager.GetUserByQuery, hm, foldl_skip_filter]
    simp [compareUser]

/-- C7 at the sample manager: the users of shell `/usr/bin/false`, by full scan. -/
theorem GetUserByQuery_without_uid_witness :
    parsePasswdFile sampleFiles samplePasswdPath = .ok sampleUsers ∧
    sampleManager.user = some sampleUsers ∧
    ∃ users, sampleManager.GetAllUsers = .ok users ∧
      sampleManager.GetUserByQuery [] [] [] [] [] "/usr/bin/false".data
        = .ok (users.filter (fun u => decide
            ((([] : Str) ≠ [] → u.Name = []) ∧ (([] : Str) ≠ [] → u.GID = []) ∧
             (([] : Str) ≠ [] → u.Comment = []) ∧ (([] : Str) ≠ [] → u.Home = []) ∧
             ("/usr/bin/false".data ≠ [] → u.Shell = "/usr/bin/false".data)))) ∧
      sampleManager.GetUserByQuery [] [] [] [] [] [] = .ok users :=
  ⟨by decide, by decide,
   GetUserByQuery_without_uid sampleFiles samplePasswdPath sampleUsers sampleManager
     [] [] [] [] "/usr/bin/false".data (by decide) (by decide)⟩

/-- C8: for every user snapshot and a non-empty `uid`, `GetUserByQuery` returns the
one-element sequence of the user `GetUserByUID uid` when that user exists and equals every
other non-empty argument on the corresponding field, and the empty sequence otherwise; so
it returns at most one record. -/
theorem GetUserByQuery_with_uid (m : manager) (d : userData)
    (name uid gid comment home shell : Str) (hm : m.user = some d) (huid : uid ≠ []) :
    ∃ r res, m.GetUserByUID uid = .ok r ∧
      m.GetUserByQuery name uid gid comment home shell = .ok res ∧
      res.length ≤ 1 ∧
      res = (match r with
        | none => []
        | some u =>
          if (name ≠ [] → u.Name = name) ∧ (gid ≠ [] → u.GID = gid) ∧
             (comment ≠ [] → u.Comment = comment) ∧ (home ≠ [] → u.Home = home) ∧
             (shell ≠ [] → u.Shell = shell) then [u] else []) := by
  have hlen : uid.length ≠ 0 := by simpa [List.length_eq_zero] using huid
  have hq : m.GetUserByQuery name uid gid comment home shell
      = .ok (match d.userMapByID.get uid with
        | none => []
        | some u =>
          if (name ≠ [] → u.Name = name) ∧ (gid ≠ [] → u.GID = gid) ∧
             (comment ≠ [] → u.Comment = comment) ∧ (home ≠ [] → u.Home = home) ∧
             (shell ≠ [] → u.Shell = shell) then [u] else []) := by
    simp only [manager.GetUserByQuery, manager.GetUserByUID, hm]
    rw [if_pos hlen]
    cases hget : d.userMapByID.get uid with
    | none => simp
    | some u =>
      have hc := compareUser_iff gid comment home shell u
      simp only [ne_eq, not_false_eq_true, ↓reduceIte]
      by_cases hn : name = []
      · subst hn
        by_cases hcu : compareUser gid comment home shell u = true
        · have h' := hc.mp hcu
          simp only [ne_eq] at h'
          simp [hcu, if_pos h']
        · have : ¬ ((gid ≠ [] → u.GID = gid) ∧ (comment ≠ [] → u.Comment = comment) ∧
              (home ≠ [] → u.Home = home) ∧ (shell ≠ [] → u.Shell = shell)) :=
            fun h => hcu (hc.mpr h)
          simp only [ne_eq] at this
          simp [hcu, this]
      · have hnl : 0 < name.length := List.length_pos.mpr hn
        by_cases hun : u.Name = name
        · by_cases hcu : compareUser gid comment home shell u = true
          · have h' := hc.mp hcu
            simp only [ne_eq] at h'
            simp [hcu, if_pos h', hun]
          · have : ¬ ((gid ≠ [] → u.GID = gid) ∧ (comment ≠ [] → u.Comment = comment) ∧
                (home ≠ [] → u.Home = home) ∧ (shell ≠ [] → u.Shell = shell)) :=
              fun h => hcu (hc.mpr h)
            simp only [ne_eq] at this
            simp [hcu, this, hun]
        · simp [hnl, hun, hn]
  refine ⟨d.userMapByID.get uid, _, by simp [manager.GetUserByUID, hm], hq, ?_, rfl⟩
  cases d.userMapByID.get uid with
  | none => simp
  | some u =>
    dsimp only
    split_ifs <;> simp

/-- C8 at the sample manager: the query of the test for uid `1`. -/
theorem GetUserByQuery_with_uid_witness :
    sampleManager.user = some sampleUsers ∧ "1".data ≠ [] ∧
    ∃ r res, sampleManager.GetUserByUID "1".data = .ok r ∧
      sampleManager.GetUserByQuery "daemon".data "1".data "1".data "System Services".data
        "/var/root".data "/usr/bin/false".data = .ok res ∧
      res.length ≤ 1 ∧
      res = (match r with
        | none => []
        | some u =>
          if ("daemon".data ≠ [] → u.Name = "daemon".data) ∧
             ("1".data ≠ [] → u.GID = "1".data) ∧
             ("System Services".data ≠ [] → u.Comment = "System Services".data) ∧
             ("/var/root".data ≠ [] → u.Home = "/var/root".data) ∧
             ("/usr/bin/false".data ≠ [] → u.Shell = "/usr/bin/false".data) then [u] else []) :=
  ⟨by decide, by decide,
   GetUserByQuery_with_uid sampleManager sampleUsers "daemon".data "1".data "1".data
     "System Services".data "/var/root".data "/usr/bin/false".data (by decide) (by decide)⟩

/-- C9: for a successfully parsed group file and an empty `gid`, `GetGroupByQuery` returns
the groups of `GetAllGroups`, in file order, whose name is `name` (when `name` is not empty)
and whose member set contains every element of `members`; so the member set of every
returned group contains `members`, and no group with an empty member list is returned for a
non-empty `members`. -/
theorem GetGroupByQuery_without_gid (fs : FileSystem) (path : Str) (d : groupData)
    (m : manager) (name : Str) (members : List Str)
    (hparse : parseGroupFile fs path = .ok d) (hm : m.group = some d) :
    ∃ groups res, m.GetAllGroups = .ok groups ∧
      m.GetGroupByQuery name [] members = .ok res ∧
      res = groups.filter (fun g => decide
        ((name ≠ [] → g.Name = name) ∧ ∀ x ∈ members, (g.memberSet.get x).isSome = true)) ∧
      (∀ g ∈ res, ∀ x ∈ members, (g.memberSet.get x).isSome = true) ∧
      (members ≠ [] → ∀ g ∈ res, g.Members ≠ []) := by
  obtain ⟨_, hname, hset⟩ := parseGroupFile_index fs path d hparse
  have hmatch : ∀ g ∈ d.groupSlice, (matchesMembers g members = true
      ↔ ∀ x ∈ members, (g.memberSet.get x).isSome = true) := by
    intro g hg
    rw [matchesMembers_iff]
    constructor
    · exact fun h => h.2
    · intro h
      refine ⟨fun hne hnil => ?_, h⟩
      obtain ⟨x, hx⟩ := List.exists_mem_of_ne_nil _ hne
      have := (hset g hg x).mp (h x hx)
      rw [hnil] at this
      exact absurd this (List.not_mem_nil x)
  have hq : m.GetGroupByQuery name [] members = .ok (d.groupSlice.filter (fun g => decide
      ((name ≠ [] → g.Name = name) ∧ ∀ x ∈ members, (g.memberSet.get x).isSome = true))) := by
    by_cases hn : name = []
    · subst hn
      simp only [manager.GetGroupByQuery, hm, foldl_append_filter]
      simp only [List.length_nil, gt_iff_lt, lt_self_iff_false, ↓reduceIte, ne_eq,
        not_true_eq_false, decide_False, Bool.false_and, Bool.false_eq_true, List.nil_append,
        Except.ok.injEq]
      apply List.filter_congr
      intro g hg
      rw [Bool.eq_iff_iff, hmatch g hg]
      simp
    · have hbucket := GoMap.getSlice_of_get _ _ _ (hname name)
      have hlen : name.length ≠ 0 := by simpa [List.length_eq_zero] using hn
      simp only [manager.GetGroupByQuery, hm, foldl_append_filter, hbucket]
      simp only [List.length_nil, gt_iff_lt, lt_self_iff_false, ↓reduceIte, ne_eq, hlen,
        not_false_eq_true, decide_True, Bool.true_and, decide_eq_true_eq, List.nil_append,
        List.filter_filter]
      split
      · rename_i hempty
        rw [List.length_eq_zero, List.filter_eq_nil_iff] at hempty
        simp only [Except.ok.injEq]
        symm
        rw [List.filter_eq_nil_iff]
        intro g hg
        have := hempty g hg
        simp only [decide_eq_true_eq] at this
        simp [hn, this]
      · simp only [Except.ok.injEq]
        apply List.filter_congr
        intro g hg
        rw [Bool.eq_iff_iff, Bool.and_eq_true, hmatch g hg]
        simp only [decide_eq_true_eq, hn, not_false_eq_true, true_implies]
        tauto
  refine ⟨d.groupSlice, _, by simp [manager.GetAllGroups, hm], hq, rfl, ?_, ?_⟩
  · intro g hg
    simp only [List.mem_filter, decide_eq_true_eq] at hg
    exact hg.2.2
  · intro hne g hg hnil
    simp only [List.mem_filter, decide_eq_true_eq] at hg
    obtain ⟨x, hx⟩ := List.exists_mem_of_ne_nil _ hne
    have := (hset g hg.1 x).mp (hg.2.2 x hx)
    rw [hnil] at this
    exact absurd this (List.not_mem_nil x)

/-- C9 at the sample manager: the groups that have the member `root`. -/
theorem GetGroupByQuery_without_gid_witness :
    parseGroupFile sampleFiles sampleGroupPath = .ok sampleGroups ∧
    sampleManager.group = some sampleGroups ∧
    (sampleManager.GetGroupByQuery [] [] ["root".data]).toOption.map (List.map Group.Name)
      = some ["wheel".data, "daemon".data] ∧
    ∃ groups res, sampleManager.GetAllGroups = .ok groups ∧
      sampleManager.GetGroupByQuery [] [] ["root".data] = .ok res ∧
      res = groups.filter (fun g => decide
        ((([] : Str) ≠ [] → g.Name = []) ∧
          ∀ x ∈ ["root".data], (g.memberSet.get x).isSome = true)) ∧
      (∀ g ∈ res, ∀ x ∈ ["root".data], (g.memberSet.get x).isSome = true) ∧
      (["root".data] ≠ [] → ∀ g ∈ res, g.Members ≠ []) :=
  ⟨by decide, by decide, by decide,
   GetGroupByQuery_without_gid sampleFiles sampleGroupPath sampleGroups sampleManager
     [] ["root".data] (by decide) (by decide)⟩

/-- C10: for every group snapshot and a non-empty `gid`, `GetGroupByQuery` returns the
one-element sequence of the group `GetGroupByGID gid` when that group exists, its name is
`name` (when `name` is not empty) and every element of `members` is in its member set, and
the empty sequence otherwise; so it returns at most one group. -/
theorem GetGroupByQuery_with_gid (m : manager) (d : groupData) (name gid : Str)
    (members : List Str) (hm : m.group = some d) (hgid : gid ≠ []) :
    ∃ r res, m.GetGroupByGID gid = .ok r ∧
      m.GetGroupByQuery name gid members = .ok res ∧
      res.length ≤ 1 ∧
      res = (match r with
        | none => []
        | some g =>
          if (name ≠ [] → g.Name = name) ∧ (∀ x ∈ members, (g.memberSet.get x).isSome = true)
          then [g] else []) := by
  have hlen : gid.length > 0 := List.length_pos.mpr hgid
  have hq : m.GetGroupByQuery name gid members
      = .ok (match d.groupMapByID.get gid with
        | none => []
        | some g =>
          if (name ≠ [] → g.Name = name) ∧ (∀ x ∈ members, (g.memberSet.get x).isSome = true)
          then [g] else []) := by
    simp only [manager.GetGroupByQuery, hm]
    rw [if_pos hlen]
    cases hget : d.groupMapByID.get gid with
    | none => simp
    | some g =>
      have hall := allMembersInSet_iff g members
      dsimp only
      by_cases hn : name = []
      · subst hn
        by_cases ha : allMembersInSet g members = true
        · have h' := hall.mp ha
          simp [ha, if_pos h']
        · have h' : ¬ ∀ x ∈ members, (g.memberSet.get x).isSome = true :=
            fun h => ha (hall.mpr h)
          simp [ha, if_neg h']
      · have hnl : 0 < name.length := List.length_pos.mpr hn
        by_cases hgn : g.Name = name
        · by_cases ha : allMembersInSet g members = true
          · have h' := hall.mp ha
            simp [ha, if_pos h', hgn]
          · have h' : ¬ ∀ x ∈ members, (g.memberSet.get x).isSome = true :=
              fun h => ha (hall.mpr h)
            simp [ha, if_neg h', hgn]
        · simp [hnl, hgn, hn]
  refine ⟨d.groupMapByID.get gid, _, by simp [manager.GetGroupByGID, hm], hq, ?_, rfl⟩
  cases d.groupMapByID.get gid with
  | none => simp
  | some g =>
    dsimp only
    split_ifs <;> simp

/-- C10 at the sample manager: the query of the test for the group `daemon` of gid `1`. -/
theorem GetGroupByQuery_with_gid_witness :
    sampleManager.group = some sampleGroups ∧ "1".data ≠ [] ∧
    (sampleManager.GetGroupByQuery "daemon".data "1".data ["root".data]).toOption.map
      (List.map Group.Name) = some ["daemon".data] ∧
    ∃ r res, sampleManager.GetGroupByGID "1".data = .ok r ∧
      sampleManager.GetGroupByQuery "daemon".data "1".data ["root".data] = .ok res ∧
      res.length ≤ 1 ∧
      res = (match r with
        | none => []
        | some g =>
          if ("daemon".data ≠ [] → g.Name = "daemon".data) ∧
            (∀ x ∈ ["root".data], (g.memberSet.get x).isSome = true)
          then [g] else []) :=
  ⟨by decide, by decide, by decide,
   GetGroupByQuery_with_gid sampleManager sampleGroups "daemon".data "1".data ["root".data]
     (by decide) (by decide)⟩

/-! ## Trimming and splitting -/

theorem TrimSpace_eq (s : Str) : TrimSpace s = (s.dropWhile isSpace).rdropWhile isSpace := rfl

theorem TrimSpace_nil : TrimSpace [] = [] := rfl

theorem TrimSpace_cons_space (c : Char) (s : Str) (hc : isSpace c = true) :
    TrimSpace (c :: s) = TrimSpace s := by
  simp [TrimSpace_eq, List.dropWhile_cons, hc]

theorem TrimSpace_concat_space (c : Char) (s : Str) (hc : isSpace c = true) :
    TrimSpace (s ++ [c]) = TrimSpace s := by
  simp only [TrimSpace_eq, List.dropWhile_append]
  by_cases hs : (List.dropWhile isSpace s).isEmpty = true
  · simp only [hs, ↓reduceIte]
    rw [List.isEmpty_iff] at hs
    simp [hs, List.dropWhile_cons, hc, List.rdropWhile]
  · simp only [hs, Bool.false_eq_true, ↓reduceIte]
    exact List.rdropWhile_concat_pos _ _ _ hc

theorem TrimSpace_idempotent (s : Str) : TrimSpace (TrimSpace s) = TrimSpace s := by
  have hleft : ((s.dropWhile isSpace).rdropWhile isSpace).dropWhile isSpace
      = (s.dropWhile isSpace).rdropWhile isSpace := by
    obtain ⟨t, ht⟩ := List.rdropWhile_prefix isSpace (s.dropWhile isSpace)
    cases hx : (s.dropWhile isSpace).rdropWhile isSpace with
    | nil => rfl
    | cons a as =>
      rw [hx] at ht
      have hne : s.dropWhile isSpace ≠ [] := by
        rw [← ht]
        simp
      have hhead := List.head_dropWhile_not isSpace s hne
      have hd : ∀ (l : Str) (hl : l ≠ []), l = a :: as ++ t → l.head hl = a := by
        intro l hl e
        subst e
        rfl
      rw [hd _ hne ht.symm] at hhead
      simp [List.dropWhile_cons, hhead]
  rw [TrimSpace_eq, TrimSpace_eq, hleft, List.rdropWhile_idempotent]

theorem Split_ne_nil (s : Str) (sep : Char) : Split s sep ≠ [] := by
  cases s with
  | nil => simp [Split]
  | cons c cs =>
    simp only [Split]
    split_ifs
    · simp
    · split <;> simp

/-- Cutting at a separator: the pieces of `a ++ sep :: b` are those of `a`, then those of `b`. -/
theorem Split_append_sep (a b : Str) (sep : Char) :
    Split (a ++ sep :: b) sep = Split a sep ++ Split b sep := by
  induction a with
  | nil => simp [Split]
  | cons x a ih =>
    by_cases hx : x = sep
    · rw [List.cons_append, Split, if_pos hx, ih, Split, if_pos hx]
      rfl
    · rw [List.cons_append, Split, if_neg hx, ih, Split, if_neg hx]
      cases hs : Split a sep with
      | nil => exact absurd hs (Split_ne_nil a sep)
      | cons h t => rfl

theorem Split_of_not_mem (s : Str) (sep : Char) (h : sep ∉ s) : Split s sep = [s] := by
  induction s with
  | nil => simp [Split]
  | cons c cs ih =>
    simp only [List.mem_cons, not_or] at h
    have hc : ¬ c = sep := fun e => h.1 e.symm
    simp [Split, hc, ih h.2]

/-- The pieces of `s` end in a last piece, which a further character joins unless it is the
separator. -/
theorem Split_concat (s : Str) (sep : Char) :
    ∃ init last, Split s sep = init ++ [last] ∧
      (∀ c, c ≠ sep → Split (s ++ [c]) sep = init ++ [last ++ [c]]) ∧
      Split (s ++ [sep]) sep = init ++ [last, []] := by
  induction s with
  | nil =>
    refine ⟨[], [], by simp [Split], ?_, by simp [Split]⟩
    intro c hc
    simp [Split, hc]
  | cons a s ih =>
    obtain ⟨init, last, h1, h2, h3⟩ := ih
    by_cases ha : a = sep
    · refine ⟨[] :: init, last, by simp [Split, ha, h1], ?_, by simp [Split, ha, h3]⟩
      intro c hc
      simp [Split, ha, h2 c hc]
    · cases init with
      | nil =>
        refine ⟨[], a :: last, by simp [Split, ha, h1], ?_, by simp [Split, ha, h3]⟩
        intro c hc
        simp [Split, ha, h2 c hc]
      | cons i is =>
        refine ⟨(a :: i) :: is, last, by simp [Split, ha, h1], ?_, by simp [Split, ha, h3]⟩
        intro c hc
        simp [Split, ha, h2 c hc]

theorem Bool_not_of_true (b : Bool) (h : b = true) : ¬ ((!b) = true) := by
  subst h
  decide

theorem Bool_not_of_not_true (b : Bool) (h : ¬ b = true) : (!b) = true := by
  cases b
  · rfl
  · exact absurd rfl h

theorem isSpace_newline : isSpace '\n' = true := by decide

theorem recordLines_cons_space (c : Char) (s : Str) (hc : isSpace c = true) :
    recordLines (c :: s) = recordLines s := by
  unfold recordLines
  by_cases hn : c = '\n'
  · simp [Split, hn, TrimSpace_nil, isRecordLine]
  · cases hs : Split s '\n' with
    | nil => exact absurd hs (Split_ne_nil s '\n')
    | cons h t => simp [Split, hn, hs, TrimSpace_cons_space c h hc]

theorem recordLines_concat_space (c : Char) (s : Str) (hc : isSpace c = true) :
    recordLines (s ++ [c]) = recordLines s := by
  unfold recordLines
  obtain ⟨init, last, h1, h2, h3⟩ := Split_concat s '\n'
  by_cases hn : c = '\n'
  · subst hn
    simp [h1, h3, TrimSpace_nil, List.filter_cons, isRecordLine]
  · simp [h1, h2 c hn, TrimSpace_concat_space c last hc]

theorem recordLines_dropWhile (s : Str) : recordLines (s.dropWhile isSpace) = recordLines s := by
  induction s with
  | nil => rfl
  | cons c s ih =>
    by_cases hc : isSpace c = true
    · rw [List.dropWhile_cons_of_pos hc, ih, recordLines_cons_space c s hc]
    · rw [List.dropWhile_cons_of_neg hc]

theorem recordLines_rdropWhile (s : Str) :
    recordLines (s.rdropWhile isSpace) = recordLines s := by
  induction s using List.reverseRecOn with
  | nil => rfl
  | append_singleton s c ih =>
    by_cases hc : isSpace c = true
    · rw [List.rdropWhile_concat_pos _ _ _ hc, ih, recordLines_concat_space c s hc]
    · rw [List.rdropWhile_concat_neg _ _ _ hc]

/-- Trimming the whole content first, as the full-file parse does, changes no record line. -/
theorem recordLines_TrimSpace (buf : Str) : recordLines (TrimSpace buf) = recordLines buf := by
  rw [TrimSpace_eq, recordLines_rdropWhile, recordLines_dropWhile]

theorem recordLines_append_newline (a b : Str) :
    recordLines (a ++ '\n' :: b) = recordLines a ++ recordLines b := by
  simp [recordLines, Split_append_sep]

/-- The loop of `parsePasswdFile` sees only the record lines. -/
theorem parsePasswdLines_recordLines (lines : List Str) (d : userData) :
    parsePasswdLines lines d
      = parsePasswdLines ((lines.map TrimSpace).filter isRecordLine) d := by
  induction lines generalizing d with
  | nil => rfl
  | cons line rest ih =>
    by_cases hskip : ((TrimSpace line).length = 0 || HasPrefix (TrimSpace line) '#') = true
    · rw [parsePasswdLines]
      simp only [hskip, ↓reduceIte, List.map_cons]
      rw [List.filter_cons_of_neg (p := isRecordLine) (Bool_not_of_true _ hskip)]
      exact ih d
    · rw [parsePasswdLines]
      simp only [hskip, Bool.false_eq_true, ↓reduceIte, List.map_cons]
      rw [List.filter_cons_of_pos (p := isRecordLine) (Bool_not_of_not_true _ hskip), parsePasswdLines]
      simp only [TrimSpace_idempotent, hskip, Bool.false_eq_true, ↓reduceIte]
      cases parseUser (TrimSpace line) with
      | error e => rfl
      | ok u => exact ih _

/-- The loop of `parseGroupFile` sees only the record lines. -/
theorem parseGroupLines_recordLines (lines : List Str) (d : groupData) :
    parseGroupLines lines d
      = parseGroupLines ((lines.map TrimSpace).filter isRecordLine) d := by
  induction lines generalizing d with
  | nil => rfl
  | cons line rest ih =>
    by_cases hskip : ((TrimSpace line).length = 0 || HasPrefix (TrimSpace line) '#') = true
    · rw [parseGroupLines]
      simp only [hskip, ↓reduceIte, List.map_cons]
      rw [List.filter_cons_of_neg (p := isRecordLine) (Bool_not_of_true _ hskip)]
      exact ih d
    · rw [parseGroupLines]
      simp only [hskip, Bool.false_eq_true, ↓reduceIte, List.map_cons]
      rw [List.filter_cons_of_pos (p := isRecordLine) (Bool_not_of_not_true _ hskip), parseGroupLines]
      simp only [TrimSpace_idempotent, hskip, Bool.false_eq_true, ↓reduceIte]
      cases parseGroup (TrimSpace line) with
      | error e => rfl
      | ok g => exact ih _

/-- The full-file parse of a readable passwd file is the loop run on its record lines. -/
theorem parsePasswdFile_content (fs : FileSystem) (path buf : Str)
    (h : fs path = .content buf) :
    parsePasswdFile fs path
      = parsePasswdLines (recordLines buf)
          { userMapByID := [], userMapByName := [], userSlice := [] } := by
  unfold parsePasswdFile ReadFile
  rw [h]
  simp only
  rw [parsePasswdLines_recordLines]
  exact congrArg (fun l => parsePasswdLines l _) (recordLines_TrimSpace buf)

/-- The full-file parse of a readable group file is the loop run on its record lines. -/
theorem parseGroupFile_content (fs : FileSystem) (path buf : Str)
    (h : fs path = .content buf) :
    parseGroupFile fs path
      = parseGroupLines (recordLines buf)
          { groupMapByID := [], groupMapByName := [], groupSlice := [] } := by
  unfold parseGroupFile ReadFile
  rw [h]
  simp only
  rw [parseGroupLines_recordLines]
  exact congrArg (fun l => parseGroupLines l _) (recordLines_TrimSpace buf)

theorem parsePasswdLines_append (l₁ l₂ : List Str) (d : userData) :
    parsePasswdLines (l₁ ++ l₂) d
      = (match parsePasswdLines l₁ d with
        | .error err => .error err
        | .ok d₁ => parsePasswdLines l₂ d₁) := by
  induction l₁ generalizing d with
  | nil => rfl
  | cons line rest ih =>
    simp only [List.cons_append, parsePasswdLines]
    split
    · exact ih d
    · cases parseUser (TrimSpace line) with
      | error e => rfl
      | ok u => exact ih _

/-- The slice of the snapshot is the records of the record lines, in order, and each of
these lines parses. -/
theorem parsePasswdLines_slice (lines : List Str) (d d' : userData)
    (h : parsePasswdLines lines d = .ok d') :
    d'.userSlice = d.userSlice
      ++ ((lines.map TrimSpace).filter isRecordLine).filterMap
          (fun l => (parseUser l).toOption) ∧
    ∀ l ∈ (lines.map TrimSpace).filter isRecordLine, ∃ u, parseUser l = .ok u := by
  induction lines generalizing d with
  | nil =>
    simp only [parsePasswdLines, Except.ok.injEq] at h
    subst h
    simp
  | cons line rest ih =>
    rw [parsePasswdLines] at h
    by_cases hskip : ((TrimSpace line).length = 0 || HasPrefix (TrimSpace line) '#') = true
    · simp only [hskip, ↓reduceIte] at h
      rw [List.map_cons, List.filter_cons_of_neg (p := isRecordLine) (Bool_not_of_true _ hskip)]
      exact ih d h
    · simp only [hskip, Bool.false_eq_true, ↓reduceIte] at h
      rw [List.map_cons,
        List.filter_cons_of_pos (p := isRecordLine) (Bool_not_of_not_true _ hskip)]
      cases hu : parseUser (TrimSpace line) with
      | error e =>
        rw [hu] at h
        exact absurd h (by simp)
      | ok u =>
        rw [hu] at h
        obtain ⟨h1, h2⟩ := ih _ h
        refine ⟨?_, ?_⟩
        · rw [h1]
          simp [hu, Except.toOption]
        · intro l hl
          rcases List.mem_cons.mp hl with e | hl
          · exact ⟨u, by rw [e, hu]⟩
          · exact h2 l hl

/-- The record parser trims its argument, so a trimmed line parses to the same record. -/
theorem parseUser_TrimSpace (line : Str) (u : User) (h : parseUser line = .ok u) :
    parseUser (TrimSpace line) = .ok u := by
  unfold parseUser at h ⊢
  rw [TrimSpace_idempotent]
  simp only at h ⊢
  split at h
  · exact absurd h (by simp)
  · rename_i hlen
    rw [if_neg hlen]
    exact h

theorem parseUser_ok_iff (line : Str) :
    (∃ u, parseUser line = .ok u)
      ↔ (Split (TrimSpace line) fieldDelim).length = numberOfFieldPasswdField := by
  unfold parseUser
  simp only
  split
  · rename_i h
    simp [h]
  · rename_i h
    simp only [ne_eq, Decidable.not_not] at h
    simp [h]

/-- The users of a successfully parsed passwd file are the records of its record lines, in
file order, and each record line parses. -/
theorem parsePasswdFile_slice (fs : FileSystem) (path buf : Str) (d : userData)
    (hfile : fs path = .content buf) (hparse : parsePasswdFile fs path = .ok d) :
    d.userSlice = (recordLines buf).filterMap (fun l => (parseUser l).toOption) ∧
    ∀ l ∈ recordLines buf, ∃ u, parseUser l = .ok u := by
  unfold parsePasswdFile ReadFile at hparse
  rw [hfile] at hparse
  simp only at hparse
  have h := parsePasswdLines_slice _ _ _ hparse
  have hr : ((Split (TrimSpace buf) '\n').map TrimSpace).filter isRecordLine = recordLines buf :=
    recordLines_TrimSpace buf
  rw [hr] at h
  simpa using h

/-! ## The fields of a user record -/

/-- C5 (as stated, it fails): the line `root:0:0:System Administrator:/var/root:/bin/sh`
splits on `:` into 6 fields and `parseUser` rejects it, so that a passwd file holding that
line fails the full-file parse and `NewManager` returns the error instead of a manager. -/
theorem parseUser_rejects_six_fields :
    (Split (TrimSpace "root:0:0:System Administrator:/var/root:/bin/sh".data)
      fieldDelim).length = 6 ∧
    parseUser "root:0:0:System Administrator:/var/root:/bin/sh".data
      = .error (malformedContent "root:0:0:System Administrator:/var/root:/bin/sh".data) ∧
    NewManager
      (sampleFS (.content "root:0:0:System Administrator:/var/root:/bin/sh\n".data)
        (.content sampleGroup)) samplePasswdPath sampleGroupPath
      = .error (malformedContent "root:0:0:System Administrator:/var/root:/bin/sh".data) := by
  refine ⟨by decide, by decide, by decide⟩

/-- C5 (amended): a user line has 7 fields separated by `:`, read in order as name, password
(ignored), uid, gid, comment, home, shell.  `parseUser` accepts a line exactly when its
trimmed text splits on `:` into 7 fields, and then returns the trimmed fields 0, 2, 3, 4, 5
and 6; the line `root:*:0:0:System Administrator:/var/root:/bin/sh` parses to the root
record; and `GetUserByUID "0"` returns the root record on every successfully parsed file
that contains that line and no other record of uid `0`. -/
theorem parseUser_seven_fields :
    (∀ line, (∃ u, parseUser line = .ok u) ↔ (Split (TrimSpace line) ':').length = 7) ∧
    (∀ line f0 f1 f2 f3 f4 f5 f6, Split (TrimSpace line) ':' = [f0, f1, f2, f3, f4, f5, f6] →
      parseUser line = .ok
        { Name := TrimSpace f0, UID := TrimSpace f2, GID := TrimSpace f3,
          Comment := TrimSpace f4, Home := TrimSpace f5, Shell := TrimSpace f6 }) ∧
    parseUser "root:*:0:0:System Administrator:/var/root:/bin/sh".data = .ok rootUser ∧
    (∀ (fs : FileSystem) (path buf : Str) (d : userData) (m : manager),
      fs path = .content buf → parsePasswdFile fs path = .ok d → m.user = some d →
      "root:*:0:0:System Administrator:/var/root:/bin/sh".data
        ∈ (Split buf '\n').map TrimSpace →
      (∀ u ∈ d.userSlice, u.UID = "0".data → u = rootUser) →
      m.GetUserByUID "0".data = .ok (some rootUser)) := by
  refine ⟨parseUser_ok_iff, ?_, by decide, ?_⟩
  · intro line f0 f1 f2 f3 f4 f5 f6 h
    simp [parseUser, h, fieldDelim, numberOfFieldPasswdField, userNameOffset, uidOffset,
      userGidOffset, commentOffset, homeOffset, shellOffset]
  · intro fs path buf d m hfile hparse hm hline huniq
    have hid := (parsePasswdFile_index fs path d hparse).1 "0".data
    obtain ⟨hslice, -⟩ := parsePasswdFile_slice fs path buf d hfile hparse
    have hrec : "root:*:0:0:System Administrator:/var/root:/bin/sh".data ∈ recordLines buf := by
      unfold recordLines
      rw [List.mem_filter]
      exact ⟨hline, by decide⟩
    have hroot : rootUser ∈ d.userSlice := by
      rw [hslice, List.mem_filterMap]
      exact ⟨_, hrec, by decide⟩
    have hmem : rootUser ∈ d.userSlice.filter (fun u => decide (u.UID = "0".data)) := by
      rw [List.mem_filter]
      exact ⟨hroot, by decide⟩
    simp only [manager.GetUserByUID, hm, hid, Except.ok.injEq]
    cases hlast : (d.userSlice.filter (fun u => decide (u.UID = "0".data))).getLast? with
    | none =>
      rw [List.getLast?_eq_none_iff] at hlast
      rw [hlast] at hmem
      exact absurd hmem (List.not_mem_nil _)
    | some x =>
      have hx := List.mem_of_getLast?_eq_some hlast
      rw [List.mem_filter] at hx
      rw [huniq x hx.1 (by simpa using hx.2)]

set_option maxRecDepth 8192 in
/-- C5 (amended) at the sample passwd file, which holds the root line. -/
theorem parseUser_seven_fields_witness :
    sampleFiles samplePasswdPath = .content samplePasswd ∧
    parsePasswdFile sampleFiles samplePasswdPath = .ok sampleUsers ∧
    sampleManager.user = some sampleUsers ∧
    "root:*:0:0:System Administrator:/var/root:/bin/sh".data
      ∈ (Split samplePasswd '\n').map TrimSpace ∧
    (∀ u ∈ sampleUsers.userSlice, u.UID = "0".data → u = rootUser) ∧
    sampleManager.GetUserByUID "0".data = .ok (some rootUser) :=
  ⟨by decide, by decide, by decide, by decide, by decide,
   parseUser_seven_fields.2.2.2 sampleFiles samplePasswdPath samplePasswd sampleUsers
     sampleManager (by decide) (by decide) (by decide) (by decide) (by decide)⟩

/-! ## The file monitor -/

theorem watchFileRun_append (path : Str) (handler : FileSystem → manager → manager)
    (t₁ t₂ : List (FileSystem × Observation)) (mon : Monitor) :
    watchFileRun path handler (t₁ ++ t₂) mon
      = watchFileRun path handler t₂ (watchFileRun path handler t₁ mon) := by
  induction t₁ generalizing mon with
  | nil => rfl
  | cons x t ih =>
    obtain ⟨fs, obs⟩ := x
    simp only [List.cons_append, watchFileRun]
    exact ih _

/-- While the path is missing, the polls of `waitForFileCreation` change nothing. -/
theorem watchFileRun_polls_missing (path : Str) (handler : FileSystem → manager → manager)
    (polls : List FileSystem) (mon : Monitor) (hphase : mon.phase = .AwaitingRecreation)
    (hpolls : ∀ fs ∈ polls, (pathExists fs path).1 = false) :
    watchFileRun path handler (polls.map (fun fs => (fs, Observation.poll))) mon = mon := by
  induction polls with
  | nil => rfl
  | cons fs rest ih =>
    have hfs : (pathExists fs path).1 = false := hpolls fs (List.mem_cons_self _ _)
    have hstep : watchFile path handler fs Observation.poll mon = mon := by
      simp [watchFile, hphase, waitForFileCreation, hfs]
    simp only [List.map_cons, watchFileRun, hstep]
    exact ih (fun fs' h => hpolls fs' (List.mem_cons_of_mem _ h))

/-- A delete or rename event, polls that find the path missing and the poll that finds it
again bring the monitor back to `Watching` with the store as it was. -/
theorem watchFileRun_recreation (path : Str) (handler : FileSystem → manager → manager)
    (mon : Monitor) (ev : FileEvent) (gone : FileSystem) (polls : List FileSystem)
    (back : FileSystem) (hphase : mon.phase = .Watching)
    (hev : ev.IsDelete = true ∨ ev.IsRename = true)
    (hpolls : ∀ fs ∈ polls, (pathExists fs path).1 = false)
    (hback : (pathExists back path).1 = true) :
    watchFileRun path handler
      ((gone, Observation.event ev) :: polls.map (fun fs => (fs, Observation.poll))
        ++ [(back, Observation.poll)]) mon = mon := by
  have h1 : watchFile path handler gone (Observation.event ev) mon
      = { mon with phase := .AwaitingRecreation } := by
    rcases hev with h | h
    · simp [watchFile, hphase, h]
    · by_cases hd : ev.IsDelete = true <;> simp [watchFile, hphase, h, hd]
  rw [List.cons_append, watchFileRun, h1, watchFileRun_append,
    watchFileRun_polls_missing path handler polls _ rfl hpolls]
  simp only [watchFileRun, watchFile, waitForFileCreation, hback]
  cases mon
  simp only at hphase
  subst hphase
  rfl

/-- C3 (the code departs from the claim): the passwd file of the sample manager is deleted
and recreated with another valid content (the user `toor` instead of `_uucp`); the monitor
sees the delete event, polls once in vain, polls again, finds the path and is back in
`Watching`.  `waitForFileCreation` has only subscribed again, the rebuild callback was not
called: the user snapshot is still the one of the deleted file, not the one parsed from the
recreated file, and `GetUserByQuery` finds no user named `toor`. -/
theorem recreated_file_not_reloaded :
    parsePasswdFile (sampleFS (.content duplicatePasswd) (.content sampleGroup))
      samplePasswdPath = .ok duplicateUsers ∧
    (watchFileRun samplePasswdPath handlePasswdFileUpdate
      [(sampleFS .missing (.content sampleGroup), .event deleteEvent),
       (sampleFS .missing (.content sampleGroup), .poll),
       (sampleFS (.content duplicatePasswd) (.content sampleGroup), .poll)]
      (passwdMonitor sampleManager)).phase = .Watching ∧
    (watchFileRun samplePasswdPath handlePasswdFileUpdate
      [(sampleFS .missing (.content sampleGroup), .event deleteEvent),
       (sampleFS .missing (.content sampleGroup), .poll),
       (sampleFS (.content duplicatePasswd) (.content sampleGroup), .poll)]
      (passwdMonitor sampleManager)).mgr.user = some sampleUsers ∧
    (watchFileRun samplePasswdPath handlePasswdFileUpdate
      [(sampleFS .missing (.content sampleGroup), .event deleteEvent),
       (sampleFS .missing (.content sampleGroup), .poll),
       (sampleFS (.content duplicatePasswd) (.content sampleGroup), .poll)]
      (passwdMonitor sampleManager)).mgr.user ≠ some duplicateUsers ∧
    (watchFileRun samplePasswdPath handlePasswdFileUpdate
      [(sampleFS .missing (.content sampleGroup), .event deleteEvent),
       (sampleFS .missing (.content sampleGroup), .poll),
       (sampleFS (.content duplicatePasswd) (.content sampleGroup), .poll)]
      (passwdMonitor sampleManager)).mgr.GetUserByQuery "toor".data [] [] [] [] [] = .ok [] ∧
    ({ sampleManager with user := some duplicateUsers }).GetUserByQuery
      "toor".data [] [] [] [] [] ≠ .ok [] := by
  refine ⟨by decide, by decide, by decide, by decide, by decide, by decide⟩

/-- The run of the monitor over a delete or rename event, polls that find the path missing
and the poll that finds it again ends in `Watching` with the store as it was before, since
the rebuild callback runs on modify events only: the content of the recreated file is
loaded by the next modify event whose content parses. -/
theorem recreation_keeps_snapshot_until_modify (path : Str)
    (handler : FileSystem → manager → manager) (mon : Monitor) (ev : FileEvent)
    (gone : FileSystem) (polls : List FileSystem) (back : FileSystem)
    (hphase : mon.phase = .Watching)
    (hev : ev.IsDelete = true ∨ ev.IsRename = true)
    (hpolls : ∀ fs ∈ polls, (pathExists fs path).1 = false)
    (hback : (pathExists back path).1 = true) :
    watchFileRun path handler
      ((gone, Observation.event ev) :: polls.map (fun fs => (fs, Observation.poll))
        ++ [(back, Observation.poll)]) mon = mon ∧
    (∀ fs d, path = mon.mgr.passwdFilePath → handler = handlePasswdFileUpdate →
      parsePasswdFile fs path = .ok d →
      (watchFileRun path handler
        (((gone, Observation.event ev) :: polls.map (fun fs => (fs, Observation.poll))
          ++ [(back, Observation.poll)]) ++ [(fs, Observation.event modifyEvent)])
        mon).mgr.user = some d) ∧
    (∀ fs d, path = mon.mgr.groupFilePath → handler = handleGroupFileUpdate →
      parseGroupFile fs path = .ok d →
      (watchFileRun path handler
        (((gone, Observation.event ev) :: polls.map (fun fs => (fs, Observation.poll))
          ++ [(back, Observation.poll)]) ++ [(fs, Observation.event modifyEvent)])
        mon).mgr.group = some d) := by
  have hrun := watchFileRun_recreation path handler mon ev gone polls back hphase hev hpolls hback
  refine ⟨hrun, ?_, ?_⟩
  · intro fs d hpath hhandler hparse
    rw [watchFileRun_append, hrun]
    subst hhandler
    rw [hpath] at hparse
    simp [watchFileRun, watchFile, hphase, modifyEvent, handlePasswdFileUpdate, hparse]
  · intro fs d hpath hhandler hparse
    rw [watchFileRun_append, hrun]
    subst hhandler
    rw [hpath] at hparse
    simp [watchFileRun, watchFile, hphase, modifyEvent, handleGroupFileUpdate, hparse]

/-- At the sample manager: the passwd file is deleted and recreated with the user `toor`;
the store is unchanged until a later modify event loads the recreated content. -/
theorem recreation_keeps_snapshot_until_modify_witness :
    (passwdMonitor sampleManager).phase = .Watching ∧
    (deleteEvent.IsDelete = true ∨ deleteEvent.IsRename = true) ∧
    (∀ fs ∈ [sampleFS .missing (.content sampleGroup)],
      (pathExists fs samplePasswdPath).1 = false) ∧
    (pathExists (sampleFS (.content duplicatePasswd) (.content sampleGroup))
      samplePasswdPath).1 = true ∧
    parsePasswdFile (sampleFS (.content duplicatePasswd) (.content sampleGroup))
      samplePasswdPath = .ok duplicateUsers ∧
    watchFileRun samplePasswdPath handlePasswdFileUpdate
      ((sampleFS .missing (.content sampleGroup), Observation.event deleteEvent)
        :: [sampleFS .missing (.content sampleGroup)].map (fun fs => (fs, Observation.poll))
        ++ [(sampleFS (.content duplicatePasswd) (.content sampleGroup), Observation.poll)])
      (passwdMonitor sampleManager) = passwdMonitor sampleManager ∧
    (watchFileRun samplePasswdPath handlePasswdFileUpdate
      (((sampleFS .missing (.content sampleGroup), Observation.event deleteEvent)
        :: [sampleFS .missing (.content sampleGroup)].map (fun fs => (fs, Observation.poll))
        ++ [(sampleFS (.content duplicatePasswd) (.content sampleGroup), Observation.poll)])
        ++ [(sampleFS (.content duplicatePasswd) (.content sampleGroup),
              Observation.event modifyEvent)])
      (passwdMonitor sampleManager)).mgr.user = some duplicateUsers :=
  ⟨by decide, by decide, by decide, by decide, by decide,
   (recreation_keeps_snapshot_until_modify samplePasswdPath handlePasswdFileUpdate
      (passwdMonitor sampleManager) deleteEvent (sampleFS .missing (.content sampleGroup))
      [sampleFS .missing (.content sampleGroup)]
      (sampleFS (.content duplicatePasswd) (.content sampleGroup))
      (by decide) (by decide) (by decide) (by decide)).1,
   (recreation_keeps_snapshot_until_modify samplePasswdPath handlePasswdFileUpdate
      (passwdMonitor sampleManager) deleteEvent (sampleFS .missing (.content sampleGroup))
      [sampleFS .missing (.content sampleGroup)]
      (sampleFS (.content duplicatePasswd) (.content sampleGroup))
      (by decide) (by decide) (by decide) (by decide)).2.1
      (sampleFS (.content duplicatePasswd) (.content sampleGroup)) duplicateUsers
      (by decide) rfl (by decide)⟩

/-! ## Rebuild on a modify event -/

/-- The record lines of a content to which the line `line` and a line feed are appended. -/
theorem recordLines_append_line (old line : Str)
    (hold : old = [] ∨ ∃ old', old = old' ++ ['\n']) (hline : '\n' ∉ line)
    (hrec : isRecordLine (TrimSpace line) = true) :
    ∃ before, recordLines (old ++ line ++ ['\n']) = before ++ [TrimSpace line] := by
  have hone : recordLines (line ++ ['\n']) = [TrimSpace line] := by
    rw [recordLines_concat_space _ _ isSpace_newline]
    simp [recordLines, Split_of_not_mem line '\n' hline, hrec]
  rcases hold with h | ⟨old', h⟩
  · subst h
    exact ⟨[], by simpa using hone⟩
  · subst h
    refine ⟨recordLines old', ?_⟩
    have : old' ++ ['\n'] ++ line ++ ['\n'] = old' ++ '\n' :: (line ++ ['\n']) := by simp
    rw [this, recordLines_append_newline, hone]

/-- C4: in `Watching`, a modify event on a file whose content parses makes the snapshot of
that file the one parsed from the content of the file (passwd file and group file alike);
when the passwd content is a previous content, empty or ending in a line feed, followed by
a record line and a line feed, the UID of that record resolves to it; and when the passwd
file is empty, `GetUserByUID` is absent for every uid and `GetAllUsers` is the empty
sequence, neither failing. -/
theorem modify_event_rebuilds_from_new_content (fs : FileSystem) (mon : Monitor)
    (ev : FileEvent) (hphase : mon.phase = .Watching) (hdel : ev.IsDelete = false)
    (hren : ev.IsRename = false) (hmod : ev.IsModify = true) :
    (∀ d, parsePasswdFile fs mon.mgr.passwdFilePath = .ok d →
      (watchFile mon.mgr.passwdFilePath handlePasswdFileUpdate fs (.event ev) mon).mgr.user
        = some d) ∧
    (∀ d, parseGroupFile fs mon.mgr.groupFilePath = .ok d →
      (watchFile mon.mgr.groupFilePath handleGroupFileUpdate fs (.event ev) mon).mgr.group
        = some d) ∧
    (∀ old line u d, (old = [] ∨ ∃ old', old = old' ++ ['\n']) → '\n' ∉ line →
      isRecordLine (TrimSpace line) = true → parseUser line = .ok u →
      fs mon.mgr.passwdFilePath = .content (old ++ line ++ ['\n']) →
      parsePasswdFile fs mon.mgr.passwdFilePath = .ok d →
      (watchFile mon.mgr.passwdFilePath handlePasswdFileUpdate fs (.event ev)
        mon).mgr.GetUserByUID u.UID = .ok (some u)) ∧
    (fs mon.mgr.passwdFilePath = .content [] →
      (∀ uid, (watchFile mon.mgr.passwdFilePath handlePasswdFileUpdate fs (.event ev)
        mon).mgr.GetUserByUID uid = .ok none) ∧
      (watchFile mon.mgr.passwdFilePath handlePasswdFileUpdate fs (.event ev)
        mon).mgr.GetAllUsers = .ok []) := by
  have hstep : ∀ handler : FileSystem → manager → manager,
      ∀ path, (watchFile path handler fs (.event ev) mon).mgr = handler fs mon.mgr := by
    intro handler path
    simp [watchFile, hphase, hdel, hren, hmod]
  have huser : ∀ d, parsePasswdFile fs mon.mgr.passwdFilePath = .ok d →
      (watchFile mon.mgr.passwdFilePath handlePasswdFileUpdate fs (.event ev) mon).mgr.user
        = some d := by
    intro d hparse
    rw [hstep]
    simp [handlePasswdFileUpdate, hparse]
  refine ⟨huser, ?_, ?_, ?_⟩
  · intro d hparse
    rw [hstep]
    simp [handleGroupFileUpdate, hparse]
  · intro old line u d hold hline hrec hu hfile hparse
    have huser' := huser d hparse
    obtain ⟨before, hlines⟩ := recordLines_append_line old line hold hline hrec
    rw [parsePasswdFile_content fs _ _ hfile, hlines, parsePasswdLines_append] at hparse
    cases h1 : parsePasswdLines before
        { userMapByID := [], userMapByName := [], userSlice := [] } with
    | error e =>
      rw [h1] at hparse
      exact absurd hparse (by simp)
    | ok d₁ =>
      rw [h1] at hparse
      have hskip : ¬ (((TrimSpace line).length = 0 || HasPrefix (TrimSpace line) '#') = true) := by
        intro h
        exact Bool_not_of_true _ h hrec
      simp only [parsePasswdLines, TrimSpace_idempotent, hskip, Bool.false_eq_true, ↓reduceIte,
        parseUser_TrimSpace line u hu, Except.ok.injEq] at hparse
      simp only [manager.GetUserByUID, huser', Except.ok.injEq]
      rw [← hparse]
      simp [GoMap.get_set]
  · intro hfile
    have hparse : parsePasswdFile fs mon.mgr.passwdFilePath
        = .ok { userMapByID := [], userMapByName := [], userSlice := [] } := by
      rw [parsePasswdFile_content fs _ _ hfile]
      rfl
    have huser' := huser _ hparse
    refine ⟨fun uid => ?_, ?_⟩
    · simp [manager.GetUserByUID, huser', GoMap.get]
    · simp [manager.GetAllUsers, huser']

set_option maxRecDepth 8192 in
/-- C4 at the sample manager: the test appends the record of uid `99`, which then resolves,
and truncates the file, after which no user is left. -/
theorem modify_event_rebuilds_from_new_content_witness :
    (passwdMonitor sampleManager).phase = .Watching ∧
    modifyEvent.IsDelete = false ∧ modifyEvent.IsRename = false ∧
    modifyEvent.IsModify = true ∧
    (samplePasswd = [] ∨ ∃ old', samplePasswd = old' ++ ['\n']) ∧
    '\n' ∉ root2Line ∧ isRecordLine (TrimSpace root2Line) = true ∧
    parseUser root2Line = .ok root2User ∧
    appendedFiles (passwdMonitor sampleManager).mgr.passwdFilePath
      = .content (samplePasswd ++ root2Line ++ ['\n']) ∧
    parsePasswdFile appendedFiles (passwdMonitor sampleManager).mgr.passwdFilePath
      = .ok appendedUsers ∧
    (watchFile (passwdMonitor sampleManager).mgr.passwdFilePath handlePasswdFileUpdate
      appendedFiles (.event modifyEvent) (passwdMonitor sampleManager)).mgr.GetUserByUID
        root2User.UID = .ok (some root2User) ∧
    sampleFS (.content []) (.content sampleGroup)
      (passwdMonitor sampleManager).mgr.passwdFilePath = .content [] ∧
    (watchFile (passwdMonitor sampleManager).mgr.passwdFilePath handlePasswdFileUpdate
      (sampleFS (.content []) (.content sampleGroup)) (.event modifyEvent)
      (passwdMonitor sampleManager)).mgr.GetAllUsers = .ok [] :=
  ⟨by decide, by decide, by decide, by decide,
   Or.inr ⟨samplePasswd.dropLast, by decide⟩, by decide, by decide, by decide, by decide,
   by decide,
   (modify_event_rebuilds_from_new_content appendedFiles (passwdMonitor sampleManager)
      modifyEvent (by decide) (by decide) (by decide) (by decide)).2.2.1
      samplePasswd root2Line root2User appendedUsers
      (Or.inr ⟨samplePasswd.dropLast, by decide⟩) (by decide) (by decide) (by decide)
      (by decide) (by decide),
   by decide,
   ((modify_event_rebuilds_from_new_content (sampleFS (.content []) (.content sampleGroup))
      (passwdMonitor sampleManager) modifyEvent (by decide) (by decide) (by decide)
      (by decide)).2.2.2 (by decide)).2⟩

/-! ## Success and failure of the full-file parse -/

theorem recordLines_mem (buf l : Str) (h : l ∈ recordLines buf) :
    TrimSpace l = l ∧ isRecordLine l = true := by
  unfold recordLines at h
  rw [List.mem_filter, List.mem_map] at h
  obtain ⟨⟨x, -, hx⟩, hr⟩ := h
  exact ⟨by rw [← hx, TrimSpace_idempotent], hr⟩

theorem exists_first_of_exists {α : Type} (p : α → Prop) (ls : List α) (h : ∃ x ∈ ls, p x) :
    ∃ pre x post, ls = pre ++ x :: post ∧ (∀ y ∈ pre, ¬ p y) ∧ p x := by
  induction ls with
  | nil =>
    obtain ⟨x, hx, -⟩ := h
    exact absurd hx (List.not_mem_nil x)
  | cons a as ih =>
    by_cases ha : p a
    · exact ⟨[], a, as, rfl, by simp, ha⟩
    · obtain ⟨x, hx, hpx⟩ := h
      rcases List.mem_cons.mp hx with e | hx'
      · exact absurd (e ▸ hpx) ha
      · obtain ⟨pre, y, post, h1, h2, h3⟩ := ih ⟨x, hx', hpx⟩
        refine ⟨a :: pre, y, post, by rw [h1]; rfl, ?_, h3⟩
        intro z hz
        rcases List.mem_cons.mp hz with e | hz'
        · rw [e]; exact ha
        · exact h2 z hz'

theorem Except_ok_of_not_error {ε α : Type} (r : Except ε α) (h : ¬ ∃ e, r = .error e) :
    ∃ a, r = .ok a := by
  cases r with
  | error e => exact absurd ⟨e, rfl⟩ h
  | ok a => exact ⟨a, rfl⟩

/-- The loop of `parsePasswdFile` succeeds when every record line parses. -/
theorem parsePasswdLines_ok (lines : List Str) (d : userData)
    (h : ∀ l ∈ (lines.map TrimSpace).filter isRecordLine, ∃ u, parseUser l = .ok u) :
    ∃ d', parsePasswdLines lines d = .ok d' := by
  induction lines generalizing d with
  | nil => exact ⟨d, rfl⟩
  | cons line rest ih =>
    rw [parsePasswdLines]
    by_cases hskip : ((TrimSpace line).length = 0 || HasPrefix (TrimSpace line) '#') = true
    · simp only [hskip, ↓reduceIte]
      rw [List.map_cons, List.filter_cons_of_neg (p := isRecordLine) (Bool_not_of_true _ hskip)]
        at h
      exact ih d h
    · simp only [hskip, Bool.false_eq_true, ↓reduceIte]
      rw [List.map_cons,
        List.filter_cons_of_pos (p := isRecordLine) (Bool_not_of_not_true _ hskip)] at h
      obtain ⟨u, hu⟩ := h _ (List.mem_cons_self _ _)
      rw [hu]
      exact ih _ (fun l hl => h l (List.mem_cons_of_mem _ hl))

/-- The loop of `parsePasswdFile` returns the error of the first record line that does not
parse. -/
theorem parsePasswdLines_first_error (lines : List Str) (d : userData) (pre : List Str)
    (l : Str) (post : List Str) (e : Str)
    (hsplit : (lines.map TrimSpace).filter isRecordLine = pre ++ l :: post)
    (hpre : ∀ x ∈ pre, ∃ u, parseUser x = .ok u) (hl : parseUser l = .error e) :
    parsePasswdLines lines d = .error e := by
  induction lines generalizing d pre with
  | nil =>
    simp only [List.map_nil, List.filter_nil] at hsplit
    exact absurd hsplit (by simp)
  | cons line rest ih =>
    rw [parsePasswdLines]
    by_cases hskip : ((TrimSpace line).length = 0 || HasPrefix (TrimSpace line) '#') = true
    · simp only [hskip, ↓reduceIte]
      rw [List.map_cons, List.filter_cons_of_neg (p := isRecordLine) (Bool_not_of_true _ hskip)]
        at hsplit
      exact ih d pre hsplit hpre
    · simp only [hskip, Bool.false_eq_true, ↓reduceIte]
      rw [List.map_cons,
        List.filter_cons_of_pos (p := isRecordLine) (Bool_not_of_not_true _ hskip)] at hsplit
      cases pre with
      | nil =>
        simp only [List.nil_append, List.cons.injEq] at hsplit
        rw [hsplit.1, hl]
      | cons x pre' =>
        simp only [List.cons_append, List.cons.injEq] at hsplit
        obtain ⟨u, hu⟩ := hpre x (List.mem_cons_self _ _)
        rw [hsplit.1, hu]
        exact ih _ pre' hsplit.2 (fun y hy => hpre y (List.mem_cons_of_mem _ hy))

theorem parseGroupLines_ok (lines : List Str) (d : groupData)
    (h : ∀ l ∈ (lines.map TrimSpace).filter isRecordLine, ∃ g, parseGroup l = .ok g) :
    ∃ d', parseGroupLines lines d = .ok d' := by
  induction lines generalizing d with
  | nil => exact ⟨d, rfl⟩
  | cons line rest ih =>
    rw [parseGroupLines]
    by_cases hskip : ((TrimSpace line).length = 0 || HasPrefix (TrimSpace line) '#') = true
    · simp only [hskip, ↓reduceIte]
      rw [List.map_cons, List.filter_cons_of_neg (p := isRecordLine) (Bool_not_of_true _ hskip)]
        at h
      exact ih d h
    · simp only [hskip, Bool.false_eq_true, ↓reduceIte]
      rw [List.map_cons,
        List.filter_cons_of_pos (p := isRecordLine) (Bool_not_of_not_true _ hskip)] at h
      obtain ⟨g, hg⟩ := h _ (List.mem_cons_self _ _)
      rw [hg]
      exact ih _ (fun l hl => h l (List.mem_cons_of_mem _ hl))

theorem parseGroupLines_first_error (lines : List Str) (d : groupData) (pre : List Str)
    (l : Str) (post : List Str) (e : Str)
    (hsplit : (lines.map TrimSpace).filter isRecordLine = pre ++ l :: post)
    (hpre : ∀ x ∈ pre, ∃ g, parseGroup x = .ok g) (hl : parseGroup l = .error e) :
    parseGroupLines lines d = .error e := by
  induction lines generalizing d pre with
  | nil =>
    simp only [List.map_nil, List.filter_nil] at hsplit
    exact absurd hsplit (by simp)
  | cons line rest ih =>
    rw [parseGroupLines]
    by_cases hskip : ((TrimSpace line).length = 0 || HasPrefix (TrimSpace line) '#') = true
    · simp only [hskip, ↓reduceIte]
      rw [List.map_cons, List.filter_cons_of_neg (p := isRecordLine) (Bool_not_of_true _ hskip)]
        at hsplit
      exact ih d pre hsplit hpre
    · simp only [hskip, Bool.false_eq_true, ↓reduceIte]
      rw [List.map_cons,
        List.filter_cons_of_pos (p := isRecordLine) (Bool_not_of_not_true _ hskip)] at hsplit
      cases pre with
      | nil =>
        simp only [List.nil_append, List.cons.injEq] at hsplit
        rw [hsplit.1, hl]
      | cons x pre' =>
        simp only [List.cons_append, List.cons.injEq] at hsplit
        obtain ⟨g, hg⟩ := hpre x (List.mem_cons_self _ _)
        rw [hsplit.1, hg]
        exact ih _ pre' hsplit.2 (fun y hy => hpre y (List.mem_cons_of_mem _ hy))

/-- The groups of the snapshot are the records of the record lines, in order, and each of
these lines parses. -/
theorem parseGroupLines_slice (lines : List Str) (d d' : groupData)
    (h : parseGroupLines lines d = .ok d') :
    d'.groupSlice = d.groupSlice
      ++ ((lines.map TrimSpace).filter isRecordLine).filterMap
          (fun l => (parseGroup l).toOption) ∧
    ∀ l ∈ (lines.map TrimSpace).filter isRecordLine, ∃ g, parseGroup l = .ok g := by
  induction lines generalizing d with
  | nil =>
    simp only [parseGroupLines, Except.ok.injEq] at h
    subst h
    simp
  | cons line rest ih =>
    rw [parseGroupLines] at h
    by_cases hskip : ((TrimSpace line).length = 0 || HasPrefix (TrimSpace line) '#') = true
    · simp only [hskip, ↓reduceIte] at h
      rw [List.map_cons, List.filter_cons_of_neg (p := isRecordLine) (Bool_not_of_true _ hskip)]
      exact ih d h
    · simp only [hskip, Bool.false_eq_true, ↓reduceIte] at h
      rw [List.map_cons,
        List.filter_cons_of_pos (p := isRecordLine) (Bool_not_of_not_true _ hskip)]
      cases hg : parseGroup (TrimSpace line) with
      | error e =>
        rw [hg] at h
        exact absurd h (by simp)
      | ok g =>
        rw [hg] at h
        obtain ⟨h1, h2⟩ := ih _ h
        refine ⟨?_, ?_⟩
        · rw [h1]
          simp [hg, Except.toOption]
        · intro l hl
          rcases List.mem_cons.mp hl with e | hl
          · exact ⟨g, by rw [e, hg]⟩
          · exact h2 l hl

theorem parseGroupFile_slice (fs : FileSystem) (path buf : Str) (d : groupData)
    (hfile : fs path = .content buf) (hparse : parseGroupFile fs path = .ok d) :
    d.groupSlice = (recordLines buf).filterMap (fun l => (parseGroup l).toOption) ∧
    ∀ l ∈ recordLines buf, ∃ g, parseGroup l = .ok g := by
  unfold parseGroupFile ReadFile at hparse
  rw [hfile] at hparse
  simp only at hparse
  have h := parseGroupLines_slice _ _ _ hparse
  have hr : ((Split (TrimSpace buf) '\n').map TrimSpace).filter isRecordLine = recordLines buf :=
    recordLines_TrimSpace buf
  rw [hr] at h
  simpa using h

theorem parsePasswdFile_ok (fs : FileSystem) (path buf : Str) (hfile : fs path = .content buf)
    (h : ∀ l ∈ recordLines buf, ∃ u, parseUser l = .ok u) :
    ∃ d, parsePasswdFile fs path = .ok d := by
  unfold parsePasswdFile ReadFile
  rw [hfile]
  have hr : ((Split (TrimSpace buf) '\n').map TrimSpace).filter isRecordLine = recordLines buf :=
    recordLines_TrimSpace buf
  exact parsePasswdLines_ok _ _ (by rw [hr]; exact h)

theorem parseGroupFile_ok (fs : FileSystem) (path buf : Str) (hfile : fs path = .content buf)
    (h : ∀ l ∈ recordLines buf, ∃ g, parseGroup l = .ok g) :
    ∃ d, parseGroupFile fs path = .ok d := by
  unfold parseGroupFile ReadFile
  rw [hfile]
  have hr : ((Split (TrimSpace buf) '\n').map TrimSpace).filter isRecordLine = recordLines buf :=
    recordLines_TrimSpace buf
  exact parseGroupLines_ok _ _ (by rw [hr]; exact h)

theorem parsePasswdFile_first_error (fs : FileSystem) (path buf : Str) (pre : List Str)
    (l : Str) (post : List Str) (e : Str) (hfile : fs path = .content buf)
    (hsplit : recordLines buf = pre ++ l :: post)
    (hpre : ∀ x ∈ pre, ∃ u, parseUser x = .ok u) (hl : parseUser l = .error e) :
    parsePasswdFile fs path = .error e := by
  unfold parsePasswdFile ReadFile
  rw [hfile]
  have hr : ((Split (TrimSpace buf) '\n').map TrimSpace).filter isRecordLine = recordLines buf :=
    recordLines_TrimSpace buf
  exact parsePasswdLines_first_error _ _ pre l post e (by rw [hr]; exact hsplit) hpre hl

theorem parseGroupFile_first_error (fs : FileSystem) (path buf : Str) (pre : List Str)
    (l : Str) (post : List Str) (e : Str) (hfile : fs path = .content buf)
    (hsplit : recordLines buf = pre ++ l :: post)
    (hpre : ∀ x ∈ pre, ∃ g, parseGroup x = .ok g) (hl : parseGroup l = .error e) :
    parseGroupFile fs path = .error e := by
  unfold parseGroupFile ReadFile
  rw [hfile]
  have hr : ((Split (TrimSpace buf) '\n').map TrimSpace).filter isRecordLine = recordLines buf :=
    recordLines_TrimSpace buf
  exact parseGroupLines_first_error _ _ pre l post e (by rw [hr]; exact hsplit) hpre hl

/-- A readable passwd file fails the full-file parse exactly when a record line fails. -/
theorem parsePasswdFile_error_iff (fs : FileSystem) (path buf : Str)
    (hfile : fs path = .content buf) :
    (∃ e, parsePasswdFile fs path = .error e)
      ↔ ∃ l ∈ recordLines buf, ∃ e, parseUser l = .error e := by
  constructor
  · intro ⟨e, he⟩
    by_contra hno
    have hall : ∀ l ∈ recordLines buf, ∃ u, parseUser l = .ok u := by
      intro l hl
      exact Except_ok_of_not_error _ (fun hex => hno ⟨l, hl, hex⟩)
    obtain ⟨d, hd⟩ := parsePasswdFile_ok fs path buf hfile hall
    rw [hd] at he
    exact absurd he (by simp)
  · intro h
    obtain ⟨pre, l, post, hsplit, hpre, e, hl⟩ :=
      exists_first_of_exists (fun l => ∃ e, parseUser l = .error e) _ h
    exact ⟨e, parsePasswdFile_first_error fs path buf pre l post e hfile hsplit
      (fun x hx => Except_ok_of_not_error _ (hpre x hx)) hl⟩

/-- A readable group file fails the full-file parse exactly when a record line fails. -/
theorem parseGroupFile_error_iff (fs : FileSystem) (path buf : Str)
    (hfile : fs path = .content buf) :
    (∃ e, parseGroupFile fs path = .error e)
      ↔ ∃ l ∈ recordLines buf, ∃ e, parseGroup l = .error e := by
  constructor
  · intro ⟨e, he⟩
    by_contra hno
    have hall : ∀ l ∈ recordLines buf, ∃ g, parseGroup l = .ok g := by
      intro l hl
      exact Except_ok_of_not_error _ (fun hex => hno ⟨l, hl, hex⟩)
    obtain ⟨d, hd⟩ := parseGroupFile_ok fs path buf hfile hall
    rw [hd] at he
    exact absurd he (by simp)
  · intro h
    obtain ⟨pre, l, post, hsplit, hpre, e, hl⟩ :=
      exists_first_of_exists (fun l => ∃ e, parseGroup l = .error e) _ h
    exact ⟨e, parseGroupFile_first_error fs path buf pre l post e hfile hsplit
      (fun x hx => Except_ok_of_not_error _ (hpre x hx)) hl⟩

theorem map_eq_map_ok_filterMap {α : Type} (f : Str → Except Str α) (ls : List Str)
    (h : ∀ l ∈ ls, ∃ a, f l = .ok a) :
    ls.map f = (ls.filterMap (fun l => (f l).toOption)).map Except.ok := by
  induction ls with
  | nil => rfl
  | cons l ls ih =>
    obtain ⟨a, ha⟩ := h l (List.mem_cons_self _ _)
    rw [List.map_cons, ih (fun x hx => h x (List.mem_cons_of_mem _ hx))]
    simp [ha, Except.toOption]

theorem parseGroup_ok_iff (line : Str) :
    (∃ g, parseGroup line = .ok g)
      ↔ (Split (TrimSpace line) fieldDelim).length = numberOfFieldGroupEntry := by
  unfold parseGroup
  simp only
  split
  · rename_i h
    simp [h]
  · rename_i h
    simp only [ne_eq, Decidable.not_not] at h
    split <;> simp [h]

theorem parseUser_error (line e : Str) (h : parseUser line = .error e) :
    e = malformedContent line := by
  unfold parseUser at h
  simp only at h
  split at h
  · simp only [Except.error.injEq] at h
    exact h.symm
  · exact absurd h (by simp)

theorem parseGroup_error (line e : Str) (h : parseGroup line = .error e) :
    e = malformedContent line := by
  unfold parseGroup at h
  simp only at h
  split at h
  · simp only [Except.error.injEq] at h
    exact h.symm
  · split at h <;> exact absurd h (by simp)

/-! ## The groups of a user -/

/-- C11 (as stated, it fails): in the store that the failed rebuild of the group file
leaves (the file rewritten to the malformed content `wheel`), the user snapshot is present
and the uid `0` resolves to `root`, yet `GetGroupsByUID "0"` dereferences the missing group
snapshot: it returns neither the empty sequence nor a sequence of groups, and `GetAllGroups`
fails as well.  With a missing user snapshot it fails for an unknown uid too. -/
theorem GetGroupsByUID_fails_on_missing_snapshot :
    (handleGroupFileUpdate (sampleFS (.content samplePasswd) (.content "wheel".data))
      sampleManager).user = some sampleUsers ∧
    (handleGroupFileUpdate (sampleFS (.content samplePasswd) (.content "wheel".data))
      sampleManager).GetUserByUID "0".data = .ok (some rootUser) ∧
    (handleGroupFileUpdate (sampleFS (.content samplePasswd) (.content "wheel".data))
      sampleManager).GetGroupsByUID "0".data = .error .nilDereference ∧
    (handleGroupFileUpdate (sampleFS (.content samplePasswd) (.content "wheel".data))
      sampleManager).GetAllGroups = .error .nilDereference ∧
    ({ sampleManager with user := none }).GetGroupsByUID "1000".data
      = .error .nilDereference := by
  refine ⟨by decide, by decide, by decide, by decide, by decide⟩

/-- C11 (amended): in every store state and for every uid, `GetGroupsByUID` returns the
empty sequence and no error when the user snapshot is present and has no user of the uid
(for a parsed passwd file: when no record of `GetAllUsers` has that UID), also when the
group snapshot is missing; when `GetUserByUID uid` is the user `u` and the group snapshot
is present, it returns the groups of `GetAllGroups`, in file order, whose member set
contains the name of `u`; and it dereferences the nil pointer when the user snapshot is
missing, or when the uid resolves and the group snapshot is missing. -/
theorem GetGroupsByUID_result (m : manager) (uid : Str) :
    (m.GetUserByUID uid = .ok none → m.GetGroupsByUID uid = .ok []) ∧
    (∀ fs path ud, m.user = some ud → parsePasswdFile fs path = .ok ud →
      (∀ u ∈ ud.userSlice, u.UID ≠ uid) → m.GetGroupsByUID uid = .ok []) ∧
    (∀ u gd, m.group = some gd → m.GetUserByUID uid = .ok (some u) →
      ∃ groups, m.GetAllGroups = .ok groups ∧
        m.GetGroupsByUID uid
          = .ok (groups.filter (fun g => (g.memberSet.get u.Name).isSome))) ∧
    (m.user = none → m.GetGroupsByUID uid = .error .nilDereference) ∧
    (∀ u, m.group = none → m.GetUserByUID uid = .ok (some u) →
      m.GetGroupsByUID uid = .error .nilDereference) := by
  have hnone : m.GetUserByUID uid = .ok none → m.GetGroupsByUID uid = .ok [] := by
    intro h
    simp [manager.GetGroupsByUID, h]
  refine ⟨hnone, ?_, ?_, ?_, ?_⟩
  · intro fs path ud hm hparse hno
    apply hnone
    have hid := (parsePasswdFile_index fs path ud hparse).1 uid
    simp only [manager.GetUserByUID, hm, hid, Except.ok.injEq, List.getLast?_eq_none_iff,
      List.filter_eq_nil_iff, decide_eq_true_eq]
    exact hno
  · intro u gd hg hu
    refine ⟨gd.groupSlice, by simp [manager.GetAllGroups, hg], ?_⟩
    simp [manager.GetGroupsByUID, hu, hg, foldl_append_filter]
  · intro hm
    simp [manager.GetGroupsByUID, manager.GetUserByUID, hm]
  · intro u hg hu
    simp [manager.GetGroupsByUID, hu, hg]

/-- C12: for a successfully parsed group file and a uid that resolves to the user `u`,
`GetGroupsByUID uid` and `GetGroupByQuery "" "" [u.Name]` return the same sequence. -/
theorem GetGroupsByUID_eq_GetGroupByQuery (fs : FileSystem) (path : Str) (gd : groupData)
    (m : manager) (uid : Str) (u : User) (hparse : parseGroupFile fs path = .ok gd)
    (hg : m.group = some gd) (hu : m.GetUserByUID uid = .ok (some u)) :
    m.GetGroupsByUID uid = m.GetGroupByQuery [] [] [u.Name] := by
  obtain ⟨-, -, hset⟩ := parseGroupFile_index fs path gd hparse
  simp only [manager.GetGroupsByUID, hu, hg, manager.GetGroupByQuery, foldl_append_filter,
    List.length_nil, gt_iff_lt, lt_self_iff_false, ↓reduceIte, ne_eq, not_true_eq_false,
    decide_False, Bool.false_and, Bool.false_eq_true, List.nil_append, Except.ok.injEq]
  apply List.filter_congr
  intro g hgmem
  rw [Bool.eq_iff_iff, matchesMembers_iff]
  simp only [ne_eq, List.cons_ne_self, not_false_eq_true, true_implies, List.mem_singleton,
    forall_eq]
  constructor
  · intro h
    refine ⟨fun hnil => ?_, h⟩
    have := (hset g hgmem u.Name).mp h
    rw [hnil] at this
    exact absurd this (List.not_mem_nil _)
  · exact fun h => h.2

/-- C11 (amended) at the sample manager: the uid `1000` is unknown, the uid `0` is `root`,
a member of `wheel` and `daemon`; and at the sample manager without its group snapshot,
where the unknown uid still gives the empty sequence and the uid `0` fails. -/
theorem GetGroupsByUID_result_witness :
    sampleManager.GetUserByUID "1000".data = .ok none ∧
    sampleManager.GetGroupsByUID "1000".data = .ok [] ∧
    sampleManager.group = some sampleGroups ∧
    sampleManager.GetUserByUID "0".data = .ok (some rootUser) ∧
    (sampleManager.GetGroupsByUID "0".data).toOption.map (List.map Group.Name)
      = some ["wheel".data, "daemon".data] ∧
    (∃ groups, sampleManager.GetAllGroups = .ok groups ∧
      sampleManager.GetGroupsByUID "0".data
        = .ok (groups.filter (fun g => (g.memberSet.get rootUser.Name).isSome))) ∧
    ({ sampleManager with group := none }).GetUserByUID "1000".data = .ok none ∧
    ({ sampleManager with group := none }).GetGroupsByUID "1000".data = .ok [] ∧
    ({ sampleManager with group := none }).group = none ∧
    ({ sampleManager with group := none }).GetUserByUID "0".data = .ok (some rootUser) ∧
    ({ sampleManager with group := none }).GetGroupsByUID "0".data
      = .error .nilDereference :=
  ⟨by decide,
   (GetGroupsByUID_result sampleManager "1000".data).1 (by decide),
   by decide, by decide, by decide,
   (GetGroupsByUID_result sampleManager "0".data).2.2.1
     rootUser sampleGroups (by decide) (by decide),
   by decide,
   (GetGroupsByUID_result { sampleManager with group := none } "1000".data).1 (by decide),
   by decide, by decide,
   (GetGroupsByUID_result { sampleManager with group := none } "0".data).2.2.2.2
     rootUser (by decide) (by decide)⟩

/-- C12 at the sample manager, as the test checks for uid `0` and member `root`. -/
theorem GetGroupsByUID_eq_GetGroupByQuery_witness :
    parseGroupFile sampleFiles sampleGroupPath = .ok sampleGroups ∧
    sampleManager.group = some sampleGroups ∧
    sampleManager.GetUserByUID "0".data = .ok (some rootUser) ∧
    sampleManager.GetGroupsByUID "0".data
      = sampleManager.GetGroupByQuery [] [] [rootUser.Name] :=
  ⟨by decide, by decide, by decide,
   GetGroupsByUID_eq_GetGroupByQuery sampleFiles sampleGroupPath sampleGroups sampleManager
     "0".data rootUser (by decide) (by decide) (by decide)⟩

/-! ## The full-file parse -/

/-- C13: when every record line (non-blank, not a comment) of a readable file is well
formed, the full-file parse succeeds and `GetAllUsers` (resp. `GetAllGroups`) is the sequence
of the records parsed from the record lines, in file order; its length is the number of
record lines. -/
theorem full_parse_of_wellformed_content (fs : FileSystem) (path buf : Str)
    (hfile : fs path = .content buf) :
    ((∀ l ∈ recordLines buf, ∃ u, parseUser l = .ok u) →
      ∃ d, parsePasswdFile fs path = .ok d ∧
        (∀ m : manager, m.user = some d → m.GetAllUsers = .ok d.userSlice) ∧
        d.userSlice.map Except.ok = (recordLines buf).map parseUser ∧
        d.userSlice.length = (recordLines buf).length) ∧
    ((∀ l ∈ recordLines buf, ∃ g, parseGroup l = .ok g) →
      ∃ d, parseGroupFile fs path = .ok d ∧
        (∀ m : manager, m.group = some d → m.GetAllGroups = .ok d.groupSlice) ∧
        d.groupSlice.map Except.ok = (recordLines buf).map parseGroup ∧
        d.groupSlice.length = (recordLines buf).length) := by
  constructor
  · intro hall
    obtain ⟨d, hd⟩ := parsePasswdFile_ok fs path buf hfile hall
    obtain ⟨hslice, -⟩ := parsePasswdFile_slice fs path buf d hfile hd
    have hmap : d.userSlice.map Except.ok = (recordLines buf).map parseUser := by
      rw [hslice, ← map_eq_map_ok_filterMap parseUser _ hall]
    refine ⟨d, hd, fun m hm => by simp [manager.GetAllUsers, hm], hmap, ?_⟩
    have := congrArg List.length hmap
    simpa using this
  · intro hall
    obtain ⟨d, hd⟩ := parseGroupFile_ok fs path buf hfile hall
    obtain ⟨hslice, -⟩ := parseGroupFile_slice fs path buf d hfile hd
    have hmap : d.groupSlice.map Except.ok = (recordLines buf).map parseGroup := by
      rw [hslice, ← map_eq_map_ok_filterMap parseGroup _ hall]
    refine ⟨d, hd, fun m hm => by simp [manager.GetAllGroups, hm], hmap, ?_⟩
    have := congrArg List.length hmap
    simpa using this

set_option maxRecDepth 8192 in
/-- C13 at the sample passwd file: five lines, of which one is a comment and one is blank,
give three users. -/
theorem full_parse_of_wellformed_content_witness :
    sampleFiles samplePasswdPath = .content samplePasswd ∧
    (∀ l ∈ recordLines samplePasswd, ∃ u, parseUser l = .ok u) ∧
    (recordLines samplePasswd).length = 3 ∧
    ∃ d, parsePasswdFile sampleFiles samplePasswdPath = .ok d ∧
      (∀ m : manager, m.user = some d → m.GetAllUsers = .ok d.userSlice) ∧
      d.userSlice.map Except.ok = (recordLines samplePasswd).map parseUser ∧
      d.userSlice.length = (recordLines samplePasswd).length :=
  ⟨by decide,
   fun l hl => (parseUser_ok_iff l).mpr
     ((by decide : ∀ l ∈ recordLines samplePasswd,
        (Split (TrimSpace l) fieldDelim).length = numberOfFieldPasswdField) l hl),
   by decide,
   (full_parse_of_wellformed_content sampleFiles samplePasswdPath samplePasswd
      (by decide)).1
     (fun l hl => (parseUser_ok_iff l).mpr
       ((by decide : ∀ l ∈ recordLines samplePasswd,
          (Split (TrimSpace l) fieldDelim).length = numberOfFieldPasswdField) l hl))⟩

/-! ## The record parsers -/

/-- C14: a line whose trimmed text splits on `:` into the 7 fields `f0 .. f6` is accepted
by `parseUser`, which returns the user of name `f0`, uid `f2`, gid `f3`, comment `f4`, home
`f5` and shell `f6`, each trimmed; the password field `f1` is ignored. -/
theorem parseUser_of_seven_fields (line f0 f1 f2 f3 f4 f5 f6 : Str)
    (h : Split (TrimSpace line) ':' = [f0, f1, f2, f3, f4, f5, f6]) :
    parseUser line = .ok
      { Name := TrimSpace f0, UID := TrimSpace f2, GID := TrimSpace f3,
        Comment := TrimSpace f4, Home := TrimSpace f5, Shell := TrimSpace f6 } := by
  simp [parseUser, h, fieldDelim, numberOfFieldPasswdField, userNameOffset, uidOffset,
    userGidOffset, commentOffset, homeOffset, shellOffset]

/-- C14 at the line of the monitor test: the user has the UID `99`. -/
theorem parseUser_of_seven_fields_witness :
    Split (TrimSpace root2Line) ':'
      = ["root2".data, "*".data, "99".data, "99".data, "System Administrator".data,
         "/var/root".data, "/bin/sh".data] ∧
    parseUser root2Line = .ok
      { Name := TrimSpace "root2".data, UID := TrimSpace "99".data,
        GID := TrimSpace "99".data, Comment := TrimSpace "System Administrator".data,
        Home := TrimSpace "/var/root".data, Shell := TrimSpace "/bin/sh".data } ∧
    TrimSpace "99".data = "99".data :=
  ⟨by decide,
   parseUser_of_seven_fields root2Line "root2".data "*".data "99".data "99".data
     "System Administrator".data "/var/root".data "/bin/sh".data (by decide),
   by decide⟩

/-- C15: a line whose trimmed text splits on `:` into the 4 fields `f0 .. f3` is accepted
by `parseGroup`, which returns the group of name `f0` and gid `f2`, each trimmed (`f1` is
ignored), with the pieces of the trimmed `f3` between the `,` as members, in order; when
`f3` is empty the member list is empty. -/
theorem parseGroup_of_four_fields (line f0 f1 f2 f3 : Str)
    (h : Split (TrimSpace line) ':' = [f0, f1, f2, f3]) :
    ∃ g, parseGroup line = .ok g ∧ g.Name = TrimSpace f0 ∧ g.GID = TrimSpace f2 ∧
      (f3 ≠ [] → g.Members = Split (TrimSpace f3) ',') ∧
      (f3 = [] → g.Members = []) := by
  by_cases h3 : f3 = []
  · subst h3
    exact ⟨_, by
      simp [parseGroup, h, fieldDelim, numberOfFieldGroupEntry, groupNameOffset,
        groupGidOffset, memberOffset]
      rfl, rfl, rfl, by simp, fun _ => rfl⟩
  · have hlen : f3.length ≠ 0 := by simpa [List.length_eq_zero] using h3
    refine ⟨{ Name := TrimSpace f0, GID := TrimSpace f2,
              Members := Split (TrimSpace f3) ',',
              memberSet := (Split (TrimSpace f3) ',').foldl (fun set m => set.set m ()) [] },
      ?_, rfl, rfl, fun _ => rfl, fun e => absurd e h3⟩
    simp [parseGroup, h, fieldDelim, numberOfFieldGroupEntry, groupNameOffset,
      groupGidOffset, memberOffset, memberDelim, h3]

/-- C15 at two lines of the sample group file. -/
theorem parseGroup_of_four_fields_witness :
    Split (TrimSpace "daemon:*:1:root,daemon".data) ':'
      = ["daemon".data, "*".data, "1".data, "root,daemon".data] ∧
    (∃ g, parseGroup "daemon:*:1:root,daemon".data = .ok g ∧
      g.Name = TrimSpace "daemon".data ∧ g.GID = TrimSpace "1".data ∧
      ("root,daemon".data ≠ [] → g.Members = Split (TrimSpace "root,daemon".data) ',') ∧
      ("root,daemon".data = [] → g.Members = [])) ∧
    Split (TrimSpace "root,daemon".data) ',' = ["root".data, "daemon".data] ∧
    Split (TrimSpace "nobody:*:-2:".data) ':' = ["nobody".data, "*".data, "-2".data, []] ∧
    (∃ g, parseGroup "nobody:*:-2:".data = .ok g ∧
      g.Name = TrimSpace "nobody".data ∧ g.GID = TrimSpace "-2".data ∧
      (([] : Str) ≠ [] → g.Members = Split (TrimSpace []) ',') ∧
      (([] : Str) = [] → g.Members = [])) :=
  ⟨by decide,
   parseGroup_of_four_fields "daemon:*:1:root,daemon".data "daemon".data "*".data "1".data
     "root,daemon".data (by decide),
   by decide, by decide,
   parseGroup_of_four_fields "nobody:*:-2:".data "nobody".data "*".data "-2".data []
     (by decide)⟩

/-- C16: `parseUser` returns an error exactly when the trimmed line does not split on `:`
into 7 fields and `parseGroup` exactly when it does not split into 4 fields; an error comes
with no record, and its message contains the text of the line. -/
theorem record_parsers_reject_wrong_arity (line : Str) :
    ((∃ e, parseUser line = .error e) ↔ (Split (TrimSpace line) ':').length ≠ 7) ∧
    ((∃ e, parseGroup line = .error e) ↔ (Split (TrimSpace line) ':').length ≠ 4) ∧
    (∀ e, parseUser line = .error e → (¬ ∃ u, parseUser line = .ok u) ∧ line <:+: e) ∧
    (∀ e, parseGroup line = .error e → (¬ ∃ g, parseGroup line = .ok g) ∧ line <:+: e) := by
  have hu := parseUser_ok_iff line
  have hg := parseGroup_ok_iff line
  simp only [fieldDelim, numberOfFieldPasswdField, numberOfFieldGroupEntry] at hu hg
  refine ⟨?_, ?_, ?_, ?_⟩
  · rw [ne_eq, ← hu]
    constructor
    · rintro ⟨e, he⟩ ⟨u, hu'⟩
      rw [he] at hu'
      exact absurd hu' (by simp)
    · intro h
      cases hp : parseUser line with
      | error e => exact ⟨e, rfl⟩
      | ok u => exact absurd ⟨u, hp⟩ h
  · rw [ne_eq, ← hg]
    constructor
    · rintro ⟨e, he⟩ ⟨g, hg'⟩
      rw [he] at hg'
      exact absurd hg' (by simp)
    · intro h
      cases hp : parseGroup line with
      | error e => exact ⟨e, rfl⟩
      | ok g => exact absurd ⟨g, hp⟩ h
  · intro e he
    refine ⟨?_, ?_⟩
    · rintro ⟨u, hu'⟩
      rw [he] at hu'
      exact absurd hu' (by simp)
    · rw [parseUser_error line e he]
      exact ⟨"Malformed content ".data, [], by simp [malformedContent]⟩
  · intro e he
    refine ⟨?_, ?_⟩
    · rintro ⟨g, hg'⟩
      rw [he] at hg'
      exact absurd hg' (by simp)
    · rw [parseGroup_error line e he]
      exact ⟨"Malformed content ".data, [], by simp [malformedContent]⟩

/-- C16 at a line of two fields. -/
theorem record_parsers_reject_wrong_arity_witness :
    parseUser "bad:line".data = .error "Malformed content bad:line".data ∧
    ((¬ ∃ u, parseUser "bad:line".data = .ok u) ∧
      "bad:line".data <:+: "Malformed content bad:line".data) ∧
    parseGroup "bad:line".data = .error "Malformed content bad:line".data ∧
    ((¬ ∃ g, parseGroup "bad:line".data = .ok g) ∧
      "bad:line".data <:+: "Malformed content bad:line".data) :=
  ⟨by decide,
   (record_parsers_reject_wrong_arity "bad:line".data).2.2.1 _ (by decide),
   by decide,
   (record_parsers_reject_wrong_arity "bad:line".data).2.2.2 _ (by decide)⟩

/-- C17: a readable file fails the full-file parse exactly when one of its record lines is
malformed; the parse then returns the error of the first malformed record line, whatever
the lines before (valid) and after it, and no snapshot. -/
theorem full_parse_fails_at_first_malformed_line (fs : FileSystem) (path buf : Str)
    (hfile : fs path = .content buf) :
    ((∃ e, parsePasswdFile fs path = .error e)
      ↔ ∃ l ∈ recordLines buf, ∃ e, parseUser l = .error e) ∧
    (∀ pre l post e, recordLines buf = pre ++ l :: post →
      (∀ x ∈ pre, ∃ u, parseUser x = .ok u) → parseUser l = .error e →
      parsePasswdFile fs path = .error e ∧ (parsePasswdFile fs path).toOption = none) ∧
    ((∃ e, parseGroupFile fs path = .error e)
      ↔ ∃ l ∈ recordLines buf, ∃ e, parseGroup l = .error e) ∧
    (∀ pre l post e, recordLines buf = pre ++ l :: post →
      (∀ x ∈ pre, ∃ g, parseGroup x = .ok g) → parseGroup l = .error e →
      parseGroupFile fs path = .error e ∧ (parseGroupFile fs path).toOption = none) := by
  refine ⟨parsePasswdFile_error_iff fs path buf hfile, ?_,
    parseGroupFile_error_iff fs path buf hfile, ?_⟩
  · intro pre l post e hsplit hpre hl
    have h := parsePasswdFile_first_error fs path buf pre l post e hfile hsplit hpre hl
    exact ⟨h, by rw [h]; rfl⟩
  · intro pre l post e hsplit hpre hl
    have h := parseGroupFile_first_error fs path buf pre l post e hfile hsplit hpre hl
    exact ⟨h, by rw [h]; rfl⟩

set_option maxRecDepth 8192 in
/-- C17 at a passwd file whose second and fourth lines are malformed: the error is the one
of the second line. -/
theorem full_parse_fails_at_first_malformed_line_witness :
    sampleFS (.content malformedPasswd) (.content sampleGroup) samplePasswdPath
      = .content malformedPasswd ∧
    recordLines malformedPasswd
      = ["root:*:0:0:System Administrator:/var/root:/bin/sh".data] ++ "bad line".data
        :: ["daemon:*:1:1:System Services:/var/root:/usr/bin/false".data, "worse".data] ∧
    (∀ x ∈ ["root:*:0:0:System Administrator:/var/root:/bin/sh".data],
      ∃ u, parseUser x = .ok u) ∧
    parseUser "bad line".data = .error (malformedContent "bad line".data) ∧
    (parsePasswdFile (sampleFS (.content malformedPasswd) (.content sampleGroup))
        samplePasswdPath = .error (malformedContent "bad line".data) ∧
      (parsePasswdFile (sampleFS (.content malformedPasswd) (.content sampleGroup))
        samplePasswdPath).toOption = none) :=
  ⟨by decide, by decide,
   fun x hx => (parseUser_ok_iff x).mpr
     ((by decide : ∀ x ∈ ["root:*:0:0:System Administrator:/var/root:/bin/sh".data],
        (Split (TrimSpace x) fieldDelim).length = numberOfFieldPasswdField) x hx),
   by decide,
   (full_parse_fails_at_first_malformed_line
      (sampleFS (.content malformedPasswd) (.content sampleGroup)) samplePasswdPath
      malformedPasswd (by decide)).2.1
     ["root:*:0:0:System Administrator:/var/root:/bin/sh".data] "bad line".data
     ["daemon:*:1:1:System Services:/var/root:/usr/bin/false".data, "worse".data]
     (malformedContent "bad line".data) (by decide)
     (fun x hx => (parseUser_ok_iff x).mpr
       ((by decide : ∀ x ∈ ["root:*:0:0:System Administrator:/var/root:/bin/sh".data],
          (Split (TrimSpace x) fieldDelim).length = numberOfFieldPasswdField) x hx))
     (by decide)⟩

/-! ## Queries on a missing snapshot -/

/-- C18 (as stated, it fails): after the group file of the sample manager is rewritten to
the malformed content `wheel`, the rebuild leaves the group snapshot missing, and
`GetAllGroups`, `GetGroupByGID`, `GetGroupByQuery` and `GetGroupsByUID` dereference the nil
pointer; with a missing user snapshot so do `GetAllUsers`, `GetUserByUID` and
`GetUserByQuery`. -/
theorem queries_on_missing_snapshot_panic :
    (handleGroupFileUpdate (sampleFS (.content samplePasswd) (.content "wheel".data))
      sampleManager).group = none ∧
    (handleGroupFileUpdate (sampleFS (.content samplePasswd) (.content "wheel".data))
      sampleManager).GetAllGroups = .error .nilDereference ∧
    (handleGroupFileUpdate (sampleFS (.content samplePasswd) (.content "wheel".data))
      sampleManager).GetGroupByGID "0".data = .error .nilDereference ∧
    (handleGroupFileUpdate (sampleFS (.content samplePasswd) (.content "wheel".data))
      sampleManager).GetGroupByQuery [] [] [] = .error .nilDereference ∧
    (handleGroupFileUpdate (sampleFS (.content samplePasswd) (.content "wheel".data))
      sampleManager).GetGroupsByUID "0".data = .error .nilDereference ∧
    ({ sampleManager with user := none }).GetAllUsers = .error .nilDereference ∧
    ({ sampleManager with user := none }).GetUserByUID "0".data = .error .nilDereference ∧
    ({ sampleManager with user := none }).GetUserByQuery [] [] [] [] [] []
      = .error .nilDereference := by
  refine ⟨by decide, by decide, by decide, by decide, by decide, by decide, by decide,
    by decide⟩

/-- C18 (amended): every exposed query is safe on an empty snapshot (the one built from a
file without records): the sequences are empty and the single records absent.  On a
missing (nil) snapshot the queries dereference the nil pointer; only `GetGroupsByUID`
returns the empty sequence without reading a missing group snapshot, when the user
snapshot has no user of the uid. -/
theorem queries_on_empty_and_missing_snapshot (m : manager) :
    (m.user = some { userMapByID := [], userMapByName := [], userSlice := [] } →
      m.GetAllUsers = .ok [] ∧ (∀ uid, m.GetUserByUID uid = .ok none) ∧
      (∀ name uid gid comment home shell,
        m.GetUserByQuery name uid gid comment home shell = .ok []) ∧
      (∀ uid, m.GetGroupsByUID uid = .ok [])) ∧
    (m.group = some { groupMapByID := [], groupMapByName := [], groupSlice := [] } →
      m.GetAllGroups = .ok [] ∧ (∀ gid, m.GetGroupByGID gid = .ok none) ∧
      (∀ name gid members, m.GetGroupByQuery name gid members = .ok []) ∧
      (∀ uid u, m.GetUserByUID uid = .ok (some u) → m.GetGroupsByUID uid = .ok [])) ∧
    (m.user = none →
      m.GetAllUsers = .error .nilDereference ∧
      (∀ uid, m.GetUserByUID uid = .error .nilDereference) ∧
      (∀ name uid gid comment home shell,
        m.GetUserByQuery name uid gid comment home shell = .error .nilDereference) ∧
      (∀ uid, m.GetGroupsByUID uid = .error .nilDereference)) ∧
    (m.group = none →
      m.GetAllGroups = .error .nilDereference ∧
      (∀ gid, m.GetGroupByGID gid = .error .nilDereference) ∧
      (∀ name gid members, m.GetGroupByQuery name gid members = .error .nilDereference) ∧
      (∀ uid u, m.GetUserByUID uid = .ok (some u) →
        m.GetGroupsByUID uid = .error .nilDereference) ∧
      (∀ uid, m.GetUserByUID uid = .ok none → m.GetGroupsByUID uid = .ok [])) := by
  refine ⟨?_, ?_, ?_, ?_⟩
  · intro hm
    have hget : ∀ uid, m.GetUserByUID uid = .ok none := by
      intro uid
      simp [manager.GetUserByUID, hm, GoMap.get]
    refine ⟨by simp [manager.GetAllUsers, hm], hget, ?_, ?_⟩
    · intro name uid gid comment home shell
      by_cases hu : uid.length ≠ 0
      · simp only [manager.GetUserByQuery, hget]
        rw [if_pos hu]
      · simp only [manager.GetUserByQuery, hm]
        rw [if_neg hu]
        by_cases hn : name = [] <;> simp [hn, GoMap.getSlice, GoMap.get]
    · intro uid
      simp [manager.GetGroupsByUID, hget]
  · intro hm
    refine ⟨by simp [manager.GetAllGroups, hm], ?_, ?_, ?_⟩
    · intro gid
      simp [manager.GetGroupByGID, hm, GoMap.get]
    · intro name gid members
      simp only [manager.GetGroupByQuery, hm]
      by_cases hg : gid.length > 0
      · rw [if_pos hg]
        simp [GoMap.get]
      · rw [if_neg hg]
        by_cases hn : name = [] <;> simp [hn, GoMap.getSlice, GoMap.get]
    · intro uid u hu
      simp [manager.GetGroupsByUID, hu, hm]
  · intro hm
    have hget : ∀ uid, m.GetUserByUID uid = .error .nilDereference := by
      intro uid
      simp [manager.GetUserByUID, hm]
    refine ⟨by simp [manager.GetAllUsers, hm], hget, ?_, ?_⟩
    · intro name uid gid comment home shell
      by_cases hu : uid.length ≠ 0
      · simp only [manager.GetUserByQuery, hget]
        rw [if_pos hu]
      · simp only [manager.GetUserByQuery, hm]
        rw [if_neg hu]
    · intro uid
      simp [manager.GetGroupsByUID, hget]
  · intro hm
    refine ⟨by simp [manager.GetAllGroups, hm], ?_, ?_, ?_, ?_⟩
    · intro gid
      simp [manager.GetGroupByGID, hm]
    · intro name gid members
      simp [manager.GetGroupByQuery, hm]
    · intro uid u hu
      simp [manager.GetGroupsByUID, hu, hm]
    · intro uid hu
      simp [manager.GetGroupsByUID, hu]

/-- C18 (amended) at the sample manager with the user snapshot removed, and at the manager
of two empty files. -/
theorem queries_on_empty_and_missing_snapshot_witness :
    ({ sampleManager with user := none }).user = none ∧
    ({ sampleManager with user := none }).GetAllUsers = .error .nilDereference ∧
    NewManager (sampleFS (.content []) (.content [])) samplePasswdPath sampleGroupPath
      = .ok { passwdFilePath := samplePasswdPath, groupFilePath := sampleGroupPath,
              user := some { userMapByID := [], userMapByName := [], userSlice := [] },
              group := some { groupMapByID := [], groupMapByName := [], groupSlice := [] } } ∧
    ({ passwdFilePath := samplePasswdPath, groupFilePath := sampleGroupPath,
       user := some { userMapByID := [], userMapByName := [], userSlice := [] },
       group := some { groupMapByID := [], groupMapByName := [], groupSlice := [] } }
      : manager).GetAllUsers = .ok [] :=
  ⟨by decide,
   ((queries_on_empty_and_missing_snapshot { sampleManager with user := none }).2.2.1
      (by decide)).1,
   by decide,
   ((queries_on_empty_and_missing_snapshot
      { passwdFilePath := samplePasswdPath, groupFilePath := sampleGroupPath,
        user := some { userMapByID := [], userMapByName := [], userSlice := [] },
        group := some { groupMapByID := [], groupMapByName := [], groupSlice := [] } }).1
      (by decide)).1⟩

/-! ## Construction -/

theorem parsePasswdFile_error_cases (fs : FileSystem) (path : Str) :
    (∃ e, parsePasswdFile fs path = .error e)
      ↔ fs path = .missing ∨ (∃ e, fs path = .statFails e) ∨ (∃ e, fs path = .unreadable e) ∨
        ∃ buf, fs path = .content buf ∧ ∃ l ∈ recordLines buf, ∃ e, parseUser l = .error e := by
  cases hfile : fs path with
  | missing => simp [parsePasswdFile, ReadFile, hfile]
  | statFails err => simp [parsePasswdFile, ReadFile, hfile]
  | unreadable err => simp [parsePasswdFile, ReadFile, hfile]
  | content buf =>
    rw [parsePasswdFile_error_iff fs path buf hfile]
    simp

theorem parseGroupFile_error_cases (fs : FileSystem) (path : Str) :
    (∃ e, parseGroupFile fs path = .error e)
      ↔ fs path = .missing ∨ (∃ e, fs path = .statFails e) ∨ (∃ e, fs path = .unreadable e) ∨
        ∃ buf, fs path = .content buf ∧ ∃ l ∈ recordLines buf, ∃ e, parseGroup l = .error e := by
  cases hfile : fs path with
  | missing => simp [parseGroupFile, ReadFile, hfile]
  | statFails err => simp [parseGroupFile, ReadFile, hfile]
  | unreadable err => simp [parseGroupFile, ReadFile, hfile]
  | content buf =>
    rw [parseGroupFile_error_iff fs path buf hfile]
    simp

theorem pathExists_false_parsePasswdFile (fs : FileSystem) (path : Str)
    (h : (pathExists fs path).1 = false) : ∃ e, parsePasswdFile fs path = .error e := by
  rw [parsePasswdFile_error_cases]
  unfold pathExists at h
  cases hfile : fs path with
  | missing => exact Or.inl rfl
  | statFails err => exact Or.inr (Or.inl ⟨err, rfl⟩)
  | unreadable err => rw [hfile] at h; exact absurd h (by simp)
  | content buf => rw [hfile] at h; exact absurd h (by simp)

theorem pathExists_false_parseGroupFile (fs : FileSystem) (path : Str)
    (h : (pathExists fs path).1 = false) : ∃ e, parseGroupFile fs path = .error e := by
  rw [parseGroupFile_error_cases]
  unfold pathExists at h
  cases hfile : fs path with
  | missing => exact Or.inl rfl
  | statFails err => exact Or.inr (Or.inl ⟨err, rfl⟩)
  | unreadable err => rw [hfile] at h; exact absurd h (by simp)
  | content buf => rw [hfile] at h; exact absurd h (by simp)

/-- `NewManager` fails exactly when one of the two full-file parses fails. -/
theorem NewManager_error_iff (fs : FileSystem) (passwdPath groupPath : Str) :
    (∃ e, NewManager fs passwdPath groupPath = .error e)
      ↔ (∃ e, parsePasswdFile fs passwdPath = .error e)
        ∨ (∃ e, parseGroupFile fs groupPath = .error e) := by
  unfold NewManager
  by_cases hp : (pathExists fs passwdPath).1 = false
  · have := pathExists_false_parsePasswdFile fs passwdPath hp
    simp [hp, this]
  · by_cases hg : (pathExists fs groupPath).1 = false
    · have := pathExists_false_parseGroupFile fs groupPath hg
      simp [hp, hg, this]
    · simp only [hp, hg, Bool.not_eq_true, Bool.false_eq_true, ↓reduceIte, Bool.not_false]
      simp only [Bool.not_eq_false] at hp hg
      simp only [hp, hg, Bool.not_true, Bool.false_eq_true, ↓reduceIte]
      cases parsePasswdFile fs passwdPath with
      | error e => simp
      | ok ud =>
        cases parseGroupFile fs groupPath with
        | error e => simp
        | ok gd => simp

/-- C19: `NewManager` returns an error, and no manager, exactly when one of the two paths
does not exist, cannot be read, or holds a content with a malformed record line; otherwise
it returns the manager of the two paths whose user and group snapshots are the full-file
parses of the two files. -/
theorem NewManager_result (fs : FileSystem) (passwdPath groupPath : Str) :
    ((∃ e, NewManager fs passwdPath groupPath = .error e)
      ↔ (fs passwdPath = .missing ∨ (∃ e, fs passwdPath = .statFails e) ∨
          (∃ e, fs passwdPath = .unreadable e) ∨
          ∃ buf, fs passwdPath = .content buf ∧
            ∃ l ∈ recordLines buf, ∃ e, parseUser l = .error e)
        ∨ (fs groupPath = .missing ∨ (∃ e, fs groupPath = .statFails e) ∨
          (∃ e, fs groupPath = .unreadable e) ∨
          ∃ buf, fs groupPath = .content buf ∧
            ∃ l ∈ recordLines buf, ∃ e, parseGroup l = .error e)) ∧
    ((∃ e, NewManager fs passwdPath groupPath = .error e)
      → (NewManager fs passwdPath groupPath).toOption = none) ∧
    ((¬ ∃ e, NewManager fs passwdPath groupPath = .error e)
      → ∃ ud gd, parsePasswdFile fs passwdPath = .ok ud ∧
          parseGroupFile fs groupPath = .ok gd ∧
          NewManager fs passwdPath groupPath
            = .ok { passwdFilePath := passwdPath, groupFilePath := groupPath,
                    user := some ud, group := some gd }) := by
  refine ⟨?_, ?_, ?_⟩
  · rw [NewManager_error_iff, parsePasswdFile_error_cases, parseGroupFile_error_cases]
  · rintro ⟨e, he⟩
    rw [he]
    rfl
  · intro hno
    rw [NewManager_error_iff, not_or] at hno
    obtain ⟨ud, hud⟩ := Except_ok_of_not_error _ hno.1
    obtain ⟨gd, hgd⟩ := Except_ok_of_not_error _ hno.2
    refine ⟨ud, gd, hud, hgd, ?_⟩
    have hp : (pathExists fs passwdPath).1 = true := by
      by_contra h
      obtain ⟨e, he⟩ := pathExists_false_parsePasswdFile fs passwdPath (by simpa using h)
      rw [hud] at he
      exact absurd he (by simp)
    have hg : (pathExists fs groupPath).1 = true := by
      by_contra h
      obtain ⟨e, he⟩ := pathExists_false_parseGroupFile fs groupPath (by simpa using h)
      rw [hgd] at he
      exact absurd he (by simp)
    simp [NewManager, hp, hg, hud, hgd]

/-- C19 at the sample files, and at the sample files without the group file. -/
theorem NewManager_result_witness :
    (¬ ∃ e, NewManager sampleFiles samplePasswdPath sampleGroupPath = .error e) ∧
    (∃ ud gd, parsePasswdFile sampleFiles samplePasswdPath = .ok ud ∧
      parseGroupFile sampleFiles sampleGroupPath = .ok gd ∧
      NewManager sampleFiles samplePasswdPath sampleGroupPath
        = .ok { passwdFilePath := samplePasswdPath, groupFilePath := sampleGroupPath,
                user := some ud, group := some gd }) ∧
    (∃ e, NewManager (sampleFS (.content samplePasswd) .missing) samplePasswdPath
      sampleGroupPath = .error e) ∧
    (NewManager (sampleFS (.content samplePasswd) .missing) samplePasswdPath
      sampleGroupPath).toOption = none :=
  ⟨fun ⟨e, he⟩ => absurd he (by
      rw [(by decide : NewManager sampleFiles samplePasswdPath sampleGroupPath
        = .ok sampleManager)]
      simp),
   (NewManager_result sampleFiles samplePasswdPath sampleGroupPath).2.2
     (fun ⟨e, he⟩ => absurd he (by
       rw [(by decide : NewManager sampleFiles samplePasswdPath sampleGroupPath
         = .ok sampleManager)]
       simp)),
   ⟨"File /etc/group does not exist".data, by decide⟩,
   (NewManager_result (sampleFS (.content samplePasswd) .missing) samplePasswdPath
     sampleGroupPath).2.1 ⟨"File /etc/group does not exist".data, by decide⟩⟩

/-! ## Stopping the monitor -/

theorem watchFile_watcherClosed (path : Str) (handler : FileSystem → manager → manager)
    (fs : FileSystem) (obs : Observation) (mon : Monitor) :
    (watchFile path handler fs obs mon).watcherClosed = mon.watcherClosed := by
  unfold watchFile waitForFileCreation
  cases mon.phase <;> cases obs <;> simp only <;> first | rfl | (split_ifs <;> rfl)

theorem watchFileRun_watcherClosed (path : Str) (handler : FileSystem → manager → manager)
    (trace : List (FileSystem × Observation)) (mon : Monitor) :
    (watchFileRun path handler trace mon).watcherClosed = mon.watcherClosed := by
  induction trace generalizing mon with
  | nil => rfl
  | cons x rest ih =>
    obtain ⟨fs, obs⟩ := x
    rw [watchFileRun, ih, watchFile_watcherClosed]

/-- C20 (the code departs from the claim): on the closed `exit` channel the monitor leaves
its loop from `Watching` and from `AwaitingRecreation`, and stays `Stopped`; but no step of
`watchFile` closes the watcher, so the monitors that `Start` launches are `Stopped` with
the watch handle still open. -/
theorem stopped_monitor_keeps_watcher_open :
    (∀ path handler fs mon, (watchFile path handler fs .exitClosed mon).phase = .Stopped) ∧
    (∀ path handler trace mon,
      (watchFileRun path handler trace mon).watcherClosed = mon.watcherClosed) ∧
    watchFileRun samplePasswdPath handlePasswdFileUpdate [(sampleFiles, .exitClosed)]
      (passwdMonitor sampleManager)
      = { phase := .Stopped, watcherClosed := false, mgr := sampleManager } ∧
    watchFileRun sampleGroupPath handleGroupFileUpdate
      [(sampleFS (.content samplePasswd) .missing, .event deleteEvent),
       (sampleFS (.content samplePasswd) .missing, .poll),
       (sampleFS (.content samplePasswd) .missing, .exitClosed)]
      (groupMonitor sampleManager)
      = { phase := .Stopped, watcherClosed := false, mgr := sampleManager } := by
  refine ⟨?_, watchFileRun_watcherClosed, by decide, by decide⟩
  intro path handler fs mon
  unfold watchFile waitForFileCreation
  cases h : mon.phase <;> simp [h]

/-! ## Whitespace in a group record -/

/-- C23 (as stated, it fails): `parseGroup` accepts the line `g:*:1:alice, bob` and returns
the members `alice` and ` bob`; the second one keeps its leading blank. -/
theorem parseGroup_keeps_blank_in_member :
    (parseGroup "g:*:1:alice, bob".data).toOption.map Group.Members
      = some ["alice".data, " bob".data] ∧
    TrimSpace " bob".data ≠ " bob".data ∧
    " bob".data.head? = some ' ' ∧ isSpace ' ' = true := by
  refine ⟨by decide, by decide, by decide, by decide⟩

/-- C23 (amended): whitespace is trimmed from every `:`-separated field of a group record;
for every line that `parseGroup` accepts, `Name` and `GID` have no leading or trailing
whitespace, and `Members` is empty or the pieces between the `,` of a member field that has
no leading or trailing whitespace; the member names are not trimmed one by one. -/
theorem parseGroup_trims_fields (line : Str) (g : Group) (h : parseGroup line = .ok g) :
    TrimSpace g.Name = g.Name ∧ TrimSpace g.GID = g.GID ∧
    (g.Members = [] ∨ ∃ field, TrimSpace field = field ∧ g.Members = Split field ',') := by
  unfold parseGroup at h
  simp only at h
  split at h
  · exact absurd h (by simp)
  · split at h
    · simp only [Except.ok.injEq] at h
      subst h
      exact ⟨TrimSpace_idempotent _, TrimSpace_idempotent _,
        Or.inr ⟨TrimSpace ((Split (TrimSpace line) fieldDelim).getD memberOffset []),
          TrimSpace_idempotent _, by simp [memberDelim]⟩⟩
    · simp only [Except.ok.injEq] at h
      subst h
      exact ⟨TrimSpace_idempotent _, TrimSpace_idempotent _, Or.inl rfl⟩

/-- C23 (amended) at the line `  wheel : * : 0 : root , admin  `. -/
theorem parseGroup_trims_fields_witness :
    parseGroup "  wheel : * : 0 : root , admin  ".data
      = .ok { Name := "wheel".data, GID := "0".data,
              Members := ["root ".data, " admin".data],
              memberSet := [(" admin".data, ()), ("root ".data, ())] } ∧
    TrimSpace "wheel".data = "wheel".data ∧ TrimSpace "0".data = "0".data ∧
    (["root ".data, " admin".data] = [] ∨
      ∃ field, TrimSpace field = field ∧ ["root ".data, " admin".data] = Split field ',') :=
  ⟨by decide,
   parseGroup_trims_fields "  wheel : * : 0 : root , admin  ".data
     { Name := "wheel".data, GID := "0".data, Members := ["root ".data, " admin".data],
       memberSet := [(" admin".data, ()), ("root ".data, ())] } (by decide)⟩

/-! ## The name buckets and the member set -/

/-- C24: in the snapshot of a successfully parsed file, the name bucket of every name is the
sequence of the records of that name, in file order, and it is absent (and read as empty)
exactly when no record has that name. -/
theorem name_bucket_is_filter :
    (∀ (fs : FileSystem) (path : Str) (d : userData) (n : Str),
      parsePasswdFile fs path = .ok d →
      d.userMapByName.getSlice n = d.userSlice.filter (fun u => decide (u.Name = n)) ∧
      (d.userMapByName.get n = none ↔ ∀ u ∈ d.userSlice, u.Name ≠ n) ∧
      (d.userMapByName.getSlice n = [] ↔ ∀ u ∈ d.userSlice, u.Name ≠ n)) ∧
    (∀ (fs : FileSystem) (path : Str) (d : groupData) (n : Str),
      parseGroupFile fs path = .ok d →
      d.groupMapByName.getSlice n = d.groupSlice.filter (fun g => decide (g.Name = n)) ∧
      (d.groupMapByName.get n = none ↔ ∀ g ∈ d.groupSlice, g.Name ≠ n) ∧
      (d.groupMapByName.getSlice n = [] ↔ ∀ g ∈ d.groupSlice, g.Name ≠ n)) := by
  constructor
  · intro fs path d n hparse
    have hname := (parsePasswdFile_index fs path d hparse).2 n
    have hslice := GoMap.getSlice_of_get _ _ _ hname
    refine ⟨hslice, ?_, ?_⟩
    · rw [hname]
      by_cases hnil : d.userSlice.filter (fun u => decide (u.Name = n)) = []
      · simp only [hnil, ↓reduceIte, true_iff]
        simpa [List.filter_eq_nil_iff] using hnil
      · simp only [hnil, ↓reduceIte]
        constructor
        · intro hsome
          exact absurd hsome (by simp)
        · intro hall
          exact absurd (by simpa [List.filter_eq_nil_iff] using hall) hnil
    · rw [hslice]
      simp [List.filter_eq_nil_iff]
  · intro fs path d n hparse
    have hname := (parseGroupFile_index fs path d hparse).2.1 n
    have hslice := GoMap.getSlice_of_get _ _ _ hname
    refine ⟨hslice, ?_, ?_⟩
    · rw [hname]
      by_cases hnil : d.groupSlice.filter (fun g => decide (g.Name = n)) = []
      · simp only [hnil, ↓reduceIte, true_iff]
        simpa [List.filter_eq_nil_iff] using hnil
      · simp only [hnil, ↓reduceIte]
        constructor
        · intro hsome
          exact absurd hsome (by simp)
        · intro hall
          exact absurd (by simpa [List.filter_eq_nil_iff] using hall) hnil
    · rw [hslice]
      simp [List.filter_eq_nil_iff]

/-- C24 at the passwd file with two users of uid `0` and at the sample group file. -/
theorem name_bucket_is_filter_witness :
    parsePasswdFile sampleFiles samplePasswdPath = .ok sampleUsers ∧
    (sampleUsers.userMapByName.getSlice "root".data
        = sampleUsers.userSlice.filter (fun u => decide (u.Name = "root".data)) ∧
      (sampleUsers.userMapByName.get "root".data = none
        ↔ ∀ u ∈ sampleUsers.userSlice, u.Name ≠ "root".data) ∧
      (sampleUsers.userMapByName.getSlice "root".data = []
        ↔ ∀ u ∈ sampleUsers.userSlice, u.Name ≠ "root".data)) ∧
    sampleUsers.userMapByName.getSlice "root".data = [rootUser] ∧
    parseGroupFile sampleFiles sampleGroupPath = .ok sampleGroups ∧
    (sampleGroups.groupMapByName.getSlice "nogroup".data
        = sampleGroups.groupSlice.filter (fun g => decide (g.Name = "nogroup".data)) ∧
      (sampleGroups.groupMapByName.get "nogroup".data = none
        ↔ ∀ g ∈ sampleGroups.groupSlice, g.Name ≠ "nogroup".data) ∧
      (sampleGroups.groupMapByName.getSlice "nogroup".data = []
        ↔ ∀ g ∈ sampleGroups.groupSlice, g.Name ≠ "nogroup".data)) :=
  ⟨by decide,
   name_bucket_is_filter.1 sampleFiles samplePasswdPath sampleUsers "root".data (by decide),
   by decide, by decide,
   name_bucket_is_filter.2 sampleFiles sampleGroupPath sampleGroups "nogroup".data
     (by decide)⟩

/-- C25: the member set of a group that `parseGroup` returns holds exactly the names of
`Members`; for an empty member list it is the empty set, which no name is in, so that the
group passes neither member test for a non-empty list of members. -/
theorem parseGroup_member_set (line : Str) (g : Group) (h : parseGroup line = .ok g) :
    (∀ x, (g.memberSet.get x).isSome = true ↔ x ∈ g.Members) ∧
    (g.Members = [] →
      g.memberSet = [] ∧ (∀ x, (g.memberSet.get x).isSome = false) ∧
      (∀ members, members ≠ [] → allMembersInSet g members = false) ∧
      (∀ members, members ≠ [] → matchesMembers g members = false)) := by
  have hset := parseGroup_memberSet line g h
  refine ⟨hset, ?_⟩
  intro hnil
  have hnone : ∀ x, (g.memberSet.get x).isSome = false := by
    intro x
    have := hset x
    rw [hnil] at this
    cases hx : (g.memberSet.get x).isSome
    · rfl
    · exact absurd (this.mp hx) (List.not_mem_nil x)
  refine ⟨?_, hnone, ?_, ?_⟩
  · cases hs : g.memberSet with
    | nil => rfl
    | cons p rest =>
      have := hnone p.1
      rw [hs] at this
      simp [GoMap.get] at this
  · intro members hne
    cases members with
    | nil => exact absurd rfl hne
    | cons x xs => simp [allMembersInSet, hnone x]
  · intro members hne
    cases members with
    | nil => exact absurd rfl hne
    | cons x xs => simp [matchesMembers, hnil]

/-- C25 at the line `nobody:*:-2:` of the sample group file. -/
theorem parseGroup_member_set_witness :
    parseGroup "nobody:*:-2:".data = .ok nobodyGroup ∧
    (∀ x, (nobodyGroup.memberSet.get x).isSome = true ↔ x ∈ nobodyGroup.Members) ∧
    (nobodyGroup.Members = [] →
      nobodyGroup.memberSet = [] ∧ (∀ x, (nobodyGroup.memberSet.get x).isSome = false) ∧
      (∀ members, members ≠ [] → allMembersInSet nobodyGroup members = false) ∧
      (∀ members, members ≠ [] → matchesMembers nobodyGroup members = false)) :=
  ⟨by decide, parseGroup_member_set "nobody:*:-2:".data nobodyGroup (by decide)⟩

/-! ## The identity fast path and the full scan -/

/-- The branch `len(uid) != 0` of `GetUserByQuery`, on a present snapshot. -/
theorem GetUserByQuery_uid_branch (m : manager) (d : userData)
    (name uid gid comment home shell : Str) (hm : m.user = some d) (huid : uid ≠ []) :
    m.GetUserByQuery name uid gid comment home shell
      = .ok ((d.userMapByID.get uid).toList.filter (fun u => decide
          ((name ≠ [] → u.Name = name) ∧ (gid ≠ [] → u.GID = gid) ∧
           (comment ≠ [] → u.Comment = comment) ∧ (home ≠ [] → u.Home = home) ∧
           (shell ≠ [] → u.Shell = shell)))) := by
  have hlen : uid.length ≠ 0 := by simpa [List.length_eq_zero] using huid
  simp only [manager.GetUserByQuery, manager.GetUserByUID, hm]
  rw [if_pos hlen]
  cases hget : d.userMapByID.get uid with
  | none => simp
  | some u =>
    have hc := compareUser_iff gid comment home shell u
    by_cases hQ : (name ≠ [] → u.Name = name) ∧ (gid ≠ [] → u.GID = gid) ∧
        (comment ≠ [] → u.Comment = comment) ∧ (home ≠ [] → u.Home = home) ∧
        (shell ≠ [] → u.Shell = shell)
    · have hcu : compareUser gid comment home shell u = true := hc.mpr hQ.2
      have hname : (decide (name.length > 0) && decide (u.Name ≠ name)) = false := by
        by_cases hn : name = []
        · simp [hn]
        · simp [hQ.1 hn]
      have hfilter : [u].filter (fun u => decide
          ((name ≠ [] → u.Name = name) ∧ (gid ≠ [] → u.GID = gid) ∧
           (comment ≠ [] → u.Comment = comment) ∧ (home ≠ [] → u.Home = home) ∧
           (shell ≠ [] → u.Shell = shell))) = [u] :=
        List.filter_cons_of_pos (decide_eq_true hQ)
      simp only [Option.toList_some, hfilter, hname, hcu, Bool.false_eq_true, ↓reduceIte,
        Bool.not_true, List.nil_append]
    · have hfilter : [u].filter (fun u => decide
          ((name ≠ [] → u.Name = name) ∧ (gid ≠ [] → u.GID = gid) ∧
           (comment ≠ [] → u.Comment = comment) ∧ (home ≠ [] → u.Home = home) ∧
           (shell ≠ [] → u.Shell = shell))) = [] :=
        List.filter_cons_of_neg (fun h => hQ (of_decide_eq_true h))
      simp only [Option.toList_some, hfilter]
      by_cases hname : (decide (name.length > 0) && decide (u.Name ≠ name)) = true
      · simp only [hname, ↓reduceIte]
      · simp only [hname, Bool.false_eq_true, ↓reduceIte]
        have hcu : compareUser gid comment home shell u = false := by
          cases hcu : compareUser gid comment home shell u
          · rfl
          · exfalso
            apply hQ
            refine ⟨fun hn => ?_, hc.mp hcu⟩
            by_contra hne
            apply hname
            simp [List.length_pos.mpr hn, hne]
        simp only [hcu, Bool.not_false, ↓reduceIte]

/-- When no two elements of a list share a key, the elements of a key are the last one. -/
theorem filter_eq_getLast?_toList {α : Type} (f : α → Str) (k : Str) (l : List α)
    (h : (l.map f).Nodup) :
    l.filter (fun x => decide (f x = k))
      = ((l.filter (fun x => decide (f x = k))).getLast?).toList := by
  induction l with
  | nil => rfl
  | cons a l ih =>
    rw [List.map_cons, List.nodup_cons] at h
    by_cases ha : f a = k
    · have hnil : l.filter (fun x => decide (f x = k)) = [] := by
        rw [List.filter_eq_nil_iff]
        intro x hx hxk
        simp only [decide_eq_true_eq] at hxk
        exact h.1 (by rw [ha, ← hxk]; exact List.mem_map_of_mem f hx)
      simp [List.filter_cons, ha, hnil]
    · simpa [List.filter_cons, ha] using ih h.2

/-- C26: for a successfully parsed passwd file in which no two records share a uid, and a
non-empty `uid`, `GetUserByQuery` returns what the full scan returns: the users of
`GetAllUsers`, in file order, whose UID is `uid` and that equal every other non-empty
argument on the corresponding field. -/
theorem GetUserByQuery_uid_agrees_with_scan (fs : FileSystem) (path : Str) (d : userData)
    (m : manager) (name uid gid comment home shell : Str)
    (hparse : parsePasswdFile fs path = .ok d) (hm : m.user = some d)
    (hnodup : (d.userSlice.map User.UID).Nodup) (huid : uid ≠ []) :
    ∃ users, m.GetAllUsers = .ok users ∧
      m.GetUserByQuery name uid gid comment home shell
        = .ok (users.filter (fun u => decide
            (u.UID = uid ∧ (name ≠ [] → u.Name = name) ∧ (gid ≠ [] → u.GID = gid) ∧
             (comment ≠ [] → u.Comment = comment) ∧ (home ≠ [] → u.Home = home) ∧
             (shell ≠ [] → u.Shell = shell)))) := by
  refine ⟨d.userSlice, by simp [manager.GetAllUsers, hm], ?_⟩
  have hid := (parsePasswdFile_index fs path d hparse).1 uid
  rw [GetUserByQuery_uid_branch m d name uid gid comment home shell hm huid, hid,
    ← filter_eq_getLast?_toList User.UID uid d.userSlice hnodup, List.filter_filter]
  simp only [Except.ok.injEq]
  apply List.filter_congr
  intro u _
  rw [Bool.eq_iff_iff]
  simp only [Bool.and_eq_true, decide_eq_true_eq]
  tauto

/-- C26 at the sample manager: the query of the test for uid `1`. -/
theorem GetUserByQuery_uid_agrees_with_scan_witness :
    parsePasswdFile sampleFiles samplePasswdPath = .ok sampleUsers ∧
    sampleManager.user = some sampleUsers ∧
    (sampleUsers.userSlice.map User.UID).Nodup ∧ "1".data ≠ [] ∧
    (sampleManager.GetUserByQuery "daemon".data "1".data [] [] [] []).toOption.map
      (List.map User.Name) = some ["daemon".data] ∧
    ∃ users, sampleManager.GetAllUsers = .ok users ∧
      sampleManager.GetUserByQuery "daemon".data "1".data [] [] [] []
        = .ok (users.filter (fun u => decide
            (u.UID = "1".data ∧ ("daemon".data ≠ [] → u.Name = "daemon".data) ∧
             (([] : Str) ≠ [] → u.GID = []) ∧ (([] : Str) ≠ [] → u.Comment = []) ∧
             (([] : Str) ≠ [] → u.Home = []) ∧ (([] : Str) ≠ [] → u.Shell = [])))) :=
  ⟨by decide, by decide, by decide, by decide, by decide,
   GetUserByQuery_uid_agrees_with_scan sampleFiles samplePasswdPath sampleUsers
     sampleManager "daemon".data "1".data [] [] [] [] (by decide) (by decide) (by decide)
     (by decide)⟩

/-! ## Independence of the two snapshots -/

theorem handlePasswdFileUpdate_frame (fs : FileSystem) (m : manager) :
    (handlePasswdFileUpdate fs m).group = m.group ∧
    (handlePasswdFileUpdate fs m).passwdFilePath = m.passwdFilePath ∧
    (handlePasswdFileUpdate fs m).groupFilePath = m.groupFilePath := by
  unfold handlePasswdFileUpdate
  cases parsePasswdFile fs m.passwdFilePath <;> exact ⟨rfl, rfl, rfl⟩

theorem handleGroupFileUpdate_frame (fs : FileSystem) (m : manager) :
    (handleGroupFileUpdate fs m).user = m.user ∧
    (handleGroupFileUpdate fs m).passwdFilePath = m.passwdFilePath ∧
    (handleGroupFileUpdate fs m).groupFilePath = m.groupFilePath := by
  unfold handleGroupFileUpdate
  cases parseGroupFile fs m.groupFilePath <;> exact ⟨rfl, rfl, rfl⟩

/-- A step of the monitor changes the store only by its handler, on a modify event. -/
theorem watchFile_mgr (path : Str) (handler : FileSystem → manager → manager)
    (fs : FileSystem) (obs : Observation) (mon : Monitor) :
    (watchFile path handler fs obs mon).mgr = mon.mgr
      ∨ (watchFile path handler fs obs mon).mgr = handler fs mon.mgr := by
  unfold watchFile waitForFileCreation
  cases mon.phase <;> cases obs <;> simp only <;>
    first
      | exact Or.inl trivial
      | exact Or.inl rfl
      | (split_ifs <;>
          first
            | exact Or.inl trivial
            | exact Or.inl rfl
            | exact Or.inr trivial
            | exact Or.inr rfl)

/-- C27: a rebuild of the passwd file, successful or not, leaves the group snapshot as it
was and a rebuild of the group file leaves the user snapshot as it was, in one call of the
callback and along every run of the monitor that calls it.  (The queries are functions of
the store that return a result and no store.) -/
theorem snapshots_are_independent :
    (∀ fs m, (handlePasswdFileUpdate fs m).group = m.group) ∧
    (∀ fs m, (handleGroupFileUpdate fs m).user = m.user) ∧
    (∀ path trace mon,
      (watchFileRun path handlePasswdFileUpdate trace mon).mgr.group = mon.mgr.group) ∧
    (∀ path trace mon,
      (watchFileRun path handleGroupFileUpdate trace mon).mgr.user = mon.mgr.user) := by
  refine ⟨fun fs m => (handlePasswdFileUpdate_frame fs m).1,
    fun fs m => (handleGroupFileUpdate_frame fs m).1, ?_, ?_⟩
  · intro path trace
    induction trace with
    | nil => intro mon; rfl
    | cons x rest ih =>
      intro mon
      obtain ⟨fs, obs⟩ := x
      rw [watchFileRun, ih]
      rcases watchFile_mgr path handlePasswdFileUpdate fs obs mon with h | h
      · rw [h]
      · rw [h, (handlePasswdFileUpdate_frame fs mon.mgr).1]
  · intro path trace
    induction trace with
    | nil => intro mon; rfl
    | cons x rest ih =>
      intro mon
      obtain ⟨fs, obs⟩ := x
      rw [watchFileRun, ih]
      rcases watchFile_mgr path handleGroupFileUpdate fs obs mon with h | h
      · rw [h]
      · rw [h, (handleGroupFileUpdate_frame fs mon.mgr).1]

/-! ## The answers of the HTTP handlers -/

theorem encodeJSON_fresh {α : Type} (marshal : α → Str) (w : ResponseWriter) (v : α)
    (hw : w.wroteHeader = false) :
    (encodeJSON marshal w v).wroteHeader = true ∧ (encodeJSON marshal w v).Code = StatusOK ∧
    (w.writeFails = false → (encodeJSON marshal w v).Body = w.Body ++ marshal v) := by
  unfold encodeJSON ResponseWriter.Write
  by_cases hf : w.writeFails = true
  · simp [ResponseWriter.WriteHeader, hw, hf]
  · simp [ResponseWriter.WriteHeader, hw, hf]

theorem WriteHeader_fresh (w : ResponseWriter) (code : Nat) (hw : w.wroteHeader = false) :
    (w.WriteHeader code).wroteHeader = true ∧ (w.WriteHeader code).Code = code ∧
    (w.WriteHeader code).Body = w.Body := by
  simp [ResponseWriter.WriteHeader, hw]

/-- What a multi-record handler does with the sequence that the manager returns. -/
theorem answersSequence_of_result {α : Type} (marshal : List α → Str) (w : ResponseWriter)
    (result : List α) (hw : w.wroteHeader = false) :
    answersSequence marshal w
      (if result.length = 0 then w.WriteHeader StatusNoContent else encodeJSON marshal w result)
      result := by
  unfold answersSequence
  by_cases hr : result = []
  · subst hr
    obtain ⟨h1, h2, h3⟩ := WriteHeader_fresh w StatusNoContent hw
    simp [h1, h2, h3]
  · have hlen : result.length ≠ 0 := by simpa [List.length_eq_zero] using hr
    obtain ⟨h1, h2, h3⟩ := encodeJSON_fresh marshal w result hw
    rw [if_neg hlen]
    refine ⟨h1, ?_, fun h => absurd h hr, fun _ => ⟨h2, h3⟩⟩
    rw [h2]
    simp [hr, StatusOK, StatusNoContent]

/-- What a single-record handler does with the record that the manager returns. -/
theorem answersRecord_of_result {α : Type} (marshal : α → Str) (w : ResponseWriter)
    (result : Option α) (hw : w.wroteHeader = false) :
    answersRecord marshal w
      (match result with
        | none => w.WriteHeader StatusNotFound
        | some v => encodeJSON marshal w v)
      result := by
  unfold answersRecord
  cases result with
  | none =>
    obtain ⟨h1, h2, h3⟩ := WriteHeader_fresh w StatusNotFound hw
    simp [h1, h2, h3]
  | some v =>
    obtain ⟨h1, h2, h3⟩ := encodeJSON_fresh marshal w v hw
    refine ⟨h1, ?_, fun h => absurd h (by simp), ?_⟩
    · simp only [h2]
      simp [StatusOK, StatusNotFound]
    · intro v' hv
      simp only [Option.some.injEq] at hv
      subst hv
      exact ⟨h2, h3⟩

/-- C22: for every implementation of `Manager`, on a response on which nothing is written
yet, each multi-record handler answers 204 No Content exactly when the manager returns an
empty sequence and each single-record handler answers 404 Not Found exactly when the
manager returns absent; in every other case the status is 200 and the JSON text of the
result is written to the body. -/
theorem handlers_distinguish_absent_and_empty (enc : Encoder) (dataMgr : Manager)
    (w : ResponseWriter) (r : Request) (hw : w.wroteHeader = false) :
    (∀ users, dataMgr.GetAllUsers = .ok users →
      ∃ w', usersAll enc dataMgr w r = .ok w' ∧ answersSequence enc.users w w' users) ∧
    (∀ users, dataMgr.GetUserByQuery (Values.Get r.Query qryName) (Values.Get r.Query qryUID)
        (Values.Get r.Query qryGID) (Values.Get r.Query userQryComment)
        (Values.Get r.Query userQryHome) (Values.Get r.Query userQryShell) = .ok users →
      ∃ w', usersByQuery enc dataMgr w r = .ok w' ∧ answersSequence enc.users w w' users) ∧
    (∀ groups, dataMgr.GetAllGroups = .ok groups →
      ∃ w', groupsAll enc dataMgr w r = .ok w' ∧ answersSequence enc.groups w w' groups) ∧
    (∀ groups, dataMgr.GetGroupsByUID (r.Vars qryUID) = .ok groups →
      ∃ w', groupsByUID enc dataMgr w r = .ok w' ∧ answersSequence enc.groups w w' groups) ∧
    (∀ groups, dataMgr.GetGroupByQuery (Values.Get r.Query qryName)
        (Values.Get r.Query qryGID) (r.Query groupQryMember) = .ok groups →
      ∃ w', groupsByQuery enc dataMgr w r = .ok w' ∧
        answersSequence enc.groups w w' groups) ∧
    (∀ user, dataMgr.GetUserByUID (r.Vars qryUID) = .ok user →
      ∃ w', usersByUID enc dataMgr w r = .ok w' ∧ answersRecord enc.user w w' user) ∧
    (∀ group, dataMgr.GetGroupByGID (r.Vars qryGID) = .ok group →
      ∃ w', groupsByGID enc dataMgr w r = .ok w' ∧ answersRecord enc.group w w' group) ∧
    StatusNoContent ≠ StatusNotFound ∧ StatusNoContent ≠ StatusOK ∧
    StatusNotFound ≠ StatusOK := by
  refine ⟨?_, ?_, ?_, ?_, ?_, ?_, ?_, by decide, by decide, by decide⟩
  · intro users h
    refine ⟨_, ?_, answersSequence_of_result enc.users w users hw⟩
    simp only [usersAll, h]
    split <;> rfl
  · intro users h
    refine ⟨_, ?_, answersSequence_of_result enc.users w users hw⟩
    simp only [usersByQuery, h]
    split <;> rfl
  · intro groups h
    refine ⟨_, ?_, answersSequence_of_result enc.groups w groups hw⟩
    simp only [groupsAll, h]
    split <;> rfl
  · intro groups h
    refine ⟨_, ?_, answersSequence_of_result enc.groups w groups hw⟩
    simp only [groupsByUID, h]
    split <;> rfl
  · intro groups h
    refine ⟨_, ?_, answersSequence_of_result enc.groups w groups hw⟩
    simp only [groupsByQuery, h]
    split <;> rfl
  · intro user h
    refine ⟨_, ?_, answersRecord_of_result enc.user w user hw⟩
    simp only [usersByUID, h]
    cases user <;> rfl
  · intro group h
    refine ⟨_, ?_, answersRecord_of_result enc.group w group hw⟩
    simp only [groupsByGID, h]
    cases group <;> rfl

/-- C22 at the sample manager: `GET /users/999` is answered 404, `GET /users/999/groups`
204, and `GET /users` 200 with the body of the encoder. -/
theorem handlers_distinguish_absent_and_empty_witness :
    freshWriter.wroteHeader = false ∧
    sampleManager.asManager.GetUserByUID (request999.Vars qryUID) = .ok none ∧
    (usersByUID nameEncoder sampleManager.asManager freshWriter request999).toOption.map
      ResponseWriter.Code = some 404 ∧
    (∃ w', usersByUID nameEncoder sampleManager.asManager freshWriter request999 = .ok w' ∧
      answersRecord nameEncoder.user freshWriter w' none) ∧
    sampleManager.asManager.GetGroupsByUID (request999.Vars qryUID) = .ok [] ∧
    (groupsByUID nameEncoder sampleManager.asManager freshWriter request999).toOption.map
      ResponseWriter.Code = some 204 ∧
    (∃ w', groupsByUID nameEncoder sampleManager.asManager freshWriter request999 = .ok w' ∧
      answersSequence nameEncoder.groups freshWriter w' []) ∧
    sampleManager.asManager.GetAllUsers = .ok sampleUsers.userSlice ∧
    (usersAll nameEncoder sampleManager.asManager freshWriter request999).toOption.map
      (fun w => (w.Code, String.mk w.Body)) = some (200, "rootdaemon_uucp") ∧
    (∃ w', usersAll nameEncoder sampleManager.asManager freshWriter request999 = .ok w' ∧
      answersSequence nameEncoder.users freshWriter w' sampleUsers.userSlice) :=
  ⟨by decide, by decide, by decide,
   (handlers_distinguish_absent_and_empty nameEncoder sampleManager.asManager freshWriter
      request999 (by decide)).2.2.2.2.2.1 none (by decide),
   by decide, by decide,
   (handlers_distinguish_absent_and_empty nameEncoder sampleManager.asManager freshWriter
      request999 (by decide)).2.2.2.1 [] (by decide),
   by decide, by decide,
   (handlers_distinguish_absent_and_empty nameEncoder sampleManager.asManager freshWriter
      request999 (by decide)).1 sampleUsers.userSlice (by decide)⟩

end Paas
